import Mathlib

/-!
Shallow embedding of the status aggregation engine of `kickoff/model.py`
(`getStatus` and the seven per-stage reducers), together with proofs about it.

Modelling conventions:
* A database row of `ReleaseEvents` becomes the structure `ReleaseEvent`
  (column types: strings, signed integers, nullable columns become `Option`).
* Python floats of the progress arithmetic are modelled by `ℚ`; Python 2's
  `round(x, 2)` (round-half-away-from-zero to 2 decimals) is `round2`.
* Each reducer is a pure function of the release's event list, the release
  name and the declared platform list (`getEnUSPlatforms` is out of scope of
  the aggregation core: the declared platform set is passed as an argument,
  matching the spec's `platformsFor` accessor).
* A Python exception escaping a reducer (`KeyError` for an event whose
  platform key is absent from the per-platform dict, `ZeroDivisionError` for
  `1.00/chunkTotal` with `chunkTotal == 0`) is modelled by an `Option` result
  of `none`; `getStatus` also returns `none` when no event carries the
  release name (Python returns `None` there).
-/

namespace Kickoff

/-- Group (stage) name constants used by `getStatus` in `model.py`. -/
def tagGroup : String := "tag"

def buildGroup : String := "build"

def repackGroup : String := "repack"

def updateGroup : String := "update"

def releasetestGroup : String := "releasetest"

def updateVerifyGroup : String := "update_verify"

def releaseGroup : String := "release"

/-- Substring searched for by `'complete' in event_name` (model.py:317, 373). -/
def completeToken : String := "complete"

/-- Substring searched for by `'postrelease' in event.event_name` (model.py:405). -/
def postreleaseToken : String := "postrelease"

/-- One row of the `release_events` table (model.py:203-225): `name` is the
release name, `eventName` the free-form event name, `platform` nullable,
`results`, `chunkNum`, `chunkTotal` signed integers, `group` nullable. The
`sent` timestamp column is omitted: no status reducer reads it. -/
structure ReleaseEvent where
  name : String
  eventName : String
  platform : Option String
  results : Int
  chunkNum : Int
  chunkTotal : Int
  group : Option String
deriving DecidableEq

/-- Per-platform entry of a chunked stage:
`{'complete': bool, 'chunks': {'num': int, 'total': int}, 'progress': float}`. -/
structure PlatformStatus where
  complete : Bool
  num : Int
  total : Int
  progress : ℚ
deriving DecidableEq

/-- Initial per-platform state (model.py:285, 315, 370). -/
def PlatformStatus.init : PlatformStatus :=
  { complete := false, num := 0, total := 0, progress := 0 }

/-- Status of a simple stage (`tag`, `update`, `releasetest`, `postrelease`). -/
structure SimpleStatus where
  complete : Bool
  progress : ℚ
deriving DecidableEq

/-- The per-platform dict of a chunked stage, as an association list keyed by
platform name (keys are exactly the deduplicated declared platforms). -/
abbrev PlatMap := List (String × PlatformStatus)

/-- Status of a chunked stage (`build`, `repack`, `release`). -/
structure ChunkedStatus where
  complete : Bool
  platforms : PlatMap
  progress : ℚ
deriving DecidableEq

/-- The full status document assembled by `getStatus` (model.py:257-266). -/
structure StatusReport where
  tag : SimpleStatus
  build : ChunkedStatus
  repack : ChunkedStatus
  update : SimpleStatus
  releasetest : SimpleStatus
  release : ChunkedStatus
  postrelease : SimpleStatus
  name : String
deriving DecidableEq

/-- Substring occurrence on character lists: `subList n h` is true when the
list `n` occurs contiguously inside `h` (Python's `in` on strings). -/
def subList (needle : List Char) : List Char → Bool
  | [] => needle.isEmpty
  | c :: rest => needle.isPrefixOf (c :: rest) || subList needle rest

/-- Python's substring test `needle in hay`. -/
def containsSub (hay needle : String) : Bool :=
  subList needle.data hay.data

/-- The test `'complete' in event_name` (model.py:317, 373). -/
def hasCompleteName (e : ReleaseEvent) : Bool :=
  containsSub e.eventName completeToken

/-- The events of one release and one group, as selected by
`ReleaseEvents.query.filter_by(name=name, group=g)`. -/
def stageEvents (events : List ReleaseEvent) (name g : String) : List ReleaseEvent :=
  events.filter (fun e => decide (e.name = name ∧ e.group = some g))

/-- First-match lookup in the per-platform dict. -/
def lookupPlat : PlatMap → String → Option PlatformStatus
  | [], _ => none
  | kv :: rest, p => if kv.1 = p then some kv.2 else lookupPlat rest p

/-- In-place mutation of the entry of key `p` (Python dict item assignment). -/
def updatePlat : PlatMap → String → (PlatformStatus → PlatformStatus) → PlatMap
  | [], _, _ => []
  | kv :: rest, p, f =>
    (if kv.1 = p then (kv.1, f kv.2) else kv) :: updatePlat rest p f

/-- The per-platform dict initialized from the declared platform list
(model.py:284-285, 314-315, 369-370); duplicate declared platforms collapse
to a single dict key, modelled by `List.dedup`. -/
def initPlatforms (platforms : List String) : PlatMap :=
  platforms.dedup.map (fun p => (p, PlatformStatus.init))

/-- Python 2's `round(q, 2)`: rounding to 2 decimal places, halves away from
zero. -/
def round2 (q : ℚ) : ℚ :=
  if 0 ≤ q then (⌊q * 100 + 1 / 2⌋ : ℚ) / 100
  else -((⌊-q * 100 + 1 / 2⌋ : ℚ) / 100)

/-- One loop iteration of a chunked reducer, shared shape of
model.py:287-291, 316-322 and 372-381. The event's platform is looked up in
the per-platform dict (`none` = `KeyError` for a null or undeclared
platform), the stage's guard models the `ZeroDivisionError` raised by
`1.00/chunkTotal` when `chunkTotal == 0`, and `step` is the stage's dict
update. -/
def stageApply (step : ReleaseEvent → PlatformStatus → PlatformStatus)
    (guard : ReleaseEvent → Bool) (m : PlatMap) (e : ReleaseEvent) : Option PlatMap :=
  e.platform.bind (fun p =>
    if (lookupPlat m p).isSome then
      if guard e then some (updatePlat m p (step e)) else none
    else none)

/-- Loop body of `buildStatus` (model.py:287-291): every build event marks its
platform complete with `num = total = 1` and progress `1.00`, by assignment. -/
def buildStep (_ : ReleaseEvent) (_ : PlatformStatus) : PlatformStatus :=
  { complete := true, num := 1, total := 1, progress := 1 }

/-- `buildStatus` never divides per event, so its guard always passes. -/
def buildApply : PlatMap → ReleaseEvent → Option PlatMap :=
  stageApply buildStep (fun _ => true)

/-- Loop body of `repackStatus` (model.py:316-322): an event whose name
contains `"complete"` marks the platform complete; otherwise `chunks.total`
is assigned the event's `chunkTotal`, `chunks.num` is incremented and
`progress` accumulates `(1.00/chunkTotal) * 1.00`. -/
def repackStep (e : ReleaseEvent) (s : PlatformStatus) : PlatformStatus :=
  if hasCompleteName e then { s with complete := true }
  else
    { s with
      total := e.chunkTotal
      num := s.num + 1
      progress := s.progress + 1 / (e.chunkTotal : ℚ) }

/-- A non-`complete` chunk event with `chunkTotal == 0` raises
`ZeroDivisionError` at `1.00/chunkTotal` (model.py:320, 376). -/
def chunkGuard (e : ReleaseEvent) : Bool :=
  hasCompleteName e || e.chunkTotal != 0

def repackApply : PlatMap → ReleaseEvent → Option PlatMap :=
  stageApply repackStep chunkGuard

/-- Loop body of the `update_verify` fold of `releaseStatus`
(model.py:372-381): as `repackStep`, and additionally the platform is marked
complete as soon as `chunks.total == chunks.num` after the update. -/
def releaseStep (e : ReleaseEvent) (s : PlatformStatus) : PlatformStatus :=
  if hasCompleteName e then { s with complete := true }
  else
    let t : PlatformStatus :=
      { s with
        total := e.chunkTotal
        num := s.num + 1
        progress := s.progress + 1 / (e.chunkTotal : ℚ) }
    if t.total = t.num then { t with complete := true } else t

def releaseApply : PlatMap → ReleaseEvent → Option PlatMap :=
  stageApply releaseStep chunkGuard

/-- Sum of `chunks.num` over the per-platform dict (model.py:293-297 etc.). -/
def sumNum (m : PlatMap) : Int :=
  (m.map (fun kv => kv.2.num)).sum

/-- Sum of `chunks.total` over the per-platform dict. -/
def sumTotal (m : PlatMap) : Int :=
  (m.map (fun kv => kv.2.total)).sum

/-- The per-platform progress rounding done inside the aggregation loop of
`repackStatus` and `releaseStatus` (model.py:329, 389). -/
def roundPlatforms (m : PlatMap) : PlatMap :=
  m.map (fun kv => (kv.1, { kv.2 with progress := round2 kv.2.progress }))

/-- Stage-level `round(float(num)/float(total), 2)` with the
`ZeroDivisionError` handler normalizing to `0.00` (model.py:330-333,
390-393). -/
def aggregateProgress (m : PlatMap) : ℚ :=
  if sumTotal m = 0 then 0 else round2 ((sumNum m : ℚ) / (sumTotal m : ℚ))

/-- Stage-level `num / total` of `buildStatus` (model.py:298-301): Python 2
integer floor division, with the `ZeroDivisionError` handler normalizing to
`0.00`. -/
def buildAggregate (m : PlatMap) : ℚ :=
  if sumTotal m = 0 then 0 else ((Int.fdiv (sumNum m) (sumTotal m) : Int) : ℚ)

/-- Assembly of the `buildStatus` result (model.py:283, 303-307): complete
exactly when the aggregate progress equals 1. -/
def buildFinish (m : PlatMap) : ChunkedStatus :=
  { complete := decide (buildAggregate m = 1), platforms := m, progress := buildAggregate m }

/-- `buildStatus(name)` (model.py:280-307). -/
def buildStatus (events : List ReleaseEvent) (name : String)
    (platforms : List String) : Option ChunkedStatus :=
  (List.foldlM buildApply (initPlatforms platforms)
      (stageEvents events name buildGroup)).map buildFinish

/-- Assembly of the `repackStatus` result (model.py:324-339): per-platform
progress rounded, aggregate progress with zero guard, complete exactly when
the aggregate progress equals 1. -/
def repackFinish (m : PlatMap) : ChunkedStatus :=
  { complete := decide (aggregateProgress m = 1)
    platforms := roundPlatforms m
    progress := aggregateProgress m }

/-- `repackStatus(name)` (model.py:310-339). -/
def repackStatus (events : List ReleaseEvent) (name : String)
    (platforms : List String) : Option ChunkedStatus :=
  (List.foldlM repackApply (initPlatforms platforms)
      (stageEvents events name repackGroup)).map repackFinish

/-- Assembly of the `releaseStatus` result (model.py:382-398): like repack,
except `complete` is set exactly when the `release` group holds any event
(`release_events.first()`), independent of the chunk math. -/
def releaseFinish (events : List ReleaseEvent) (name : String)
    (m : PlatMap) : ChunkedStatus :=
  { complete := decide (stageEvents events name releaseGroup ≠ [])
    platforms := roundPlatforms m
    progress := aggregateProgress m }

/-- `releaseStatus(name)` (model.py:364-398): folds the `update_verify`
events per platform, completion driven by the `release` group. -/
def releaseStatus (events : List ReleaseEvent) (name : String)
    (platforms : List String) : Option ChunkedStatus :=
  (List.foldlM releaseApply (initPlatforms platforms)
      (stageEvents events name updateVerifyGroup)).map (releaseFinish events name)

/-- Shared shape of `tagStatus`, `updateStatus`, `releasetestStatus`
(model.py:269-277, 342-350, 353-361): complete with progress `1.00` when the
group holds an event with a truthy (non-empty) release name. -/
def boolStatus (events : List ReleaseEvent) (name g : String) : SimpleStatus :=
  if (stageEvents events name g).any (fun e => e.name != "") then
    { complete := true, progress := 1 }
  else
    { complete := false, progress := 0 }

def tagStatus (events : List ReleaseEvent) (name : String) : SimpleStatus :=
  boolStatus events name tagGroup

def updateStatus (events : List ReleaseEvent) (name : String) : SimpleStatus :=
  boolStatus events name updateGroup

def releasetestStatus (events : List ReleaseEvent) (name : String) : SimpleStatus :=
  boolStatus events name releasetestGroup

/-- `postreleaseStatus(name)` (model.py:401-407): complete when any event of
the release (all groups) has `'postrelease'` in its event name. -/
def postreleaseStatus (events : List ReleaseEvent) (name : String) : SimpleStatus :=
  if (events.filter (fun e => decide (e.name = name))).any
      (fun e => containsSub e.eventName postreleaseToken) then
    { complete := true, progress := 1 }
  else
    { complete := false, progress := 0 }

/-- `getStatus(name)` (model.py:257-266): `none` when the release has no
events at all (Python returns `None`) or when one of the chunked reducers
raises; otherwise the assembled status document. -/
def getStatus (events : List ReleaseEvent) (name : String)
    (platforms : List String) : Option StatusReport :=
  if (events.filter (fun e => decide (e.name = name))).isEmpty then none
  else
    match buildStatus events name platforms, repackStatus events name platforms,
        releaseStatus events name platforms with
    | some b, some r, some rel =>
      some
        { tag := tagStatus events name
          build := b
          repack := r
          update := updateStatus events name
          releasetest := releasetestStatus events name
          release := rel
          postrelease := postreleaseStatus events name
          name := name }
    | _, _, _ => none

/-- A reported platform is declared when it is non-null and occurs in the
declared platform set; events failing this make the Python dict lookups
raise `KeyError`. -/
def eventPlatformDeclared (e : ReleaseEvent) (P : List String) : Bool :=
  e.platform.elim false (fun q => decide (q ∈ P))

/-- The non-`complete` chunk events of one stage group reported for one
platform. -/
def platformChunkEvents (events : List ReleaseEvent) (name g p : String) : List ReleaseEvent :=
  ((stageEvents events name g).filter (fun e => decide (e.platform = some p))).filter
    (fun e => !hasCompleteName e)

/-- Consistent chunk reporting for a stage: per declared platform, all
non-`complete` chunk events carry one common `chunkTotal`, and at most
`chunkTotal` such events arrive. -/
def consistentChunks (events : List ReleaseEvent) (name g : String) (P : List String) : Prop :=
  ∀ p ∈ P,
    (∀ e1 ∈ platformChunkEvents events name g p, ∀ e2 ∈ platformChunkEvents events name g p,
      e1.chunkTotal = e2.chunkTotal) ∧
    (∀ e ∈ platformChunkEvents events name g p,
      ((platformChunkEvents events name g p).length : Int) ≤ e.chunkTotal)

/-- Two events that agree on every field the status reducers read; only
`chunkNum` may differ. -/
def eqExceptChunkNum (a b : ReleaseEvent) : Prop :=
  a.name = b.name ∧ a.eventName = b.eventName ∧ a.platform = b.platform ∧
    a.results = b.results ∧ a.chunkTotal = b.chunkTotal ∧ a.group = b.group

/-! Concrete names and events used by witnesses and counterexamples. -/

def relName : String := "rel"

def platLinux : String := "linux"

def platMac : String := "mac"

def platBsd : String := "bsd"

/-- Repack chunk event 1 of 2 for linux. -/
def evRepack1of2 : ReleaseEvent :=
  { name := "rel", eventName := "repack1", platform := some "linux", results := 0,
    chunkNum := 1, chunkTotal := 2, group := some "repack" }

/-- Repack chunk event 2 of 2 for linux; same `chunkNum` variants are used by
the chunkNum-independence claim. -/
def evRepack2of2 : ReleaseEvent :=
  { name := "rel", eventName := "repack2", platform := some "linux", results := 0,
    chunkNum := 2, chunkTotal := 2, group := some "repack" }

/-- Like `evRepack2of2` but carrying the same `chunkNum` as `evRepack1of2`. -/
def evRepack2of2dupNum : ReleaseEvent :=
  { name := "rel", eventName := "repack2", platform := some "linux", results := 0,
    chunkNum := 1, chunkTotal := 2, group := some "repack" }

/-- Repack chunk event 1 of 1 for linux. -/
def evRepack1of1 : ReleaseEvent :=
  { name := "rel", eventName := "repack1", platform := some "linux", results := 0,
    chunkNum := 1, chunkTotal := 1, group := some "repack" }

/-- A second repack chunk event claiming total 1 for linux: more chunk events
than the declared chunk total. -/
def evRepack2of1 : ReleaseEvent :=
  { name := "rel", eventName := "repack2", platform := some "linux", results := 0,
    chunkNum := 2, chunkTotal := 1, group := some "repack" }

/-- A repack chunk event with `chunkTotal = 0` (the database default when the
producer sends no chunk information). -/
def evRepackZeroTotal : ReleaseEvent :=
  { name := "rel", eventName := "repack1", platform := some "linux", results := 0,
    chunkNum := 1, chunkTotal := 0, group := some "repack" }

/-- An update_verify chunk event with `chunkTotal = 0`. -/
def evVerifyZeroTotal : ReleaseEvent :=
  { name := "rel", eventName := "uv1", platform := some "linux", results := 0,
    chunkNum := 1, chunkTotal := 0, group := some "update_verify" }

/-- A repack chunk event for a platform absent from the declared set. -/
def evRepackBsd : ReleaseEvent :=
  { name := "rel", eventName := "repack1", platform := some "bsd", results := 0,
    chunkNum := 1, chunkTotal := 5, group := some "repack" }

/-- Update-verify chunk event 1 of 1 for linux. -/
def evVerify1of1 : ReleaseEvent :=
  { name := "rel", eventName := "uv1", platform := some "linux", results := 0,
    chunkNum := 1, chunkTotal := 1, group := some "update_verify" }

/-- Update-verify chunk event 1 of 2 for linux. -/
def evVerify1of2 : ReleaseEvent :=
  { name := "rel", eventName := "uv1", platform := some "linux", results := 0,
    chunkNum := 1, chunkTotal := 2, group := some "update_verify" }

/-- Update-verify chunk event 2 of 2 for linux. -/
def evVerify2of2 : ReleaseEvent :=
  { name := "rel", eventName := "uv2", platform := some "linux", results := 0,
    chunkNum := 2, chunkTotal := 2, group := some "update_verify" }

/-- A build event for linux. -/
def evBuildLinux : ReleaseEvent :=
  { name := "rel", eventName := "build1", platform := some "linux", results := 0,
    chunkNum := 0, chunkTotal := 0, group := some "build" }

/-- A second build event for linux under a different event name. -/
def evBuildLinux2 : ReleaseEvent :=
  { name := "rel", eventName := "build2", platform := some "linux", results := 0,
    chunkNum := 0, chunkTotal := 0, group := some "build" }

/-- A tag event (release-wide, no platform). -/
def evTag : ReleaseEvent :=
  { name := "rel", eventName := "tagged", platform := none, results := 0,
    chunkNum := 0, chunkTotal := 0, group := some "tag" }

def enRepack1 : String := "repack1"

def enRepack2 : String := "repack2"

/-- Expected release-stage output of the C5 witness. -/
def c5Out : ChunkedStatus :=
  { complete := false,
    platforms := [(platLinux, { complete := true, num := 1, total := 1, progress := 1 })],
    progress := 1 }

/-- Expected build-stage output of the C6 witness. -/
def c6Out : ChunkedStatus :=
  { complete := true,
    platforms := [(platLinux, { complete := true, num := 1, total := 1, progress := 1 })],
    progress := 1 }

/-- Expected build-stage output of the C7 witness. -/
def c7Out : ChunkedStatus :=
  { complete := true,
    platforms := [(platLinux, { complete := true, num := 1, total := 1, progress := 1 }),
      (platMac, PlatformStatus.init)],
    progress := 1 }

/-- Expected repack-stage output of the C1 witness. -/
def c1RepOut : ChunkedStatus :=
  { complete := true,
    platforms := [(platLinux, { complete := false, num := 2, total := 2, progress := 1 })],
    progress := 1 }

/-- Expected release-stage output of the C1 witness. -/
def c1RelOut : ChunkedStatus :=
  { complete := false,
    platforms := [(platLinux, { complete := true, num := 2, total := 2, progress := 1 })],
    progress := 1 }

/-! ### Association-list lemmas for the per-platform dict -/

theorem lookupPlat_mapForm (L : List String) (g : String → PlatformStatus) (p : String) :
    lookupPlat (L.map (fun q => (q, g q))) p = if p ∈ L then some (g p) else none := by
  induction L with
  | nil => simp [lookupPlat]
  | cons a t ih =>
    simp only [List.map_cons, lookupPlat, List.mem_cons]
    by_cases h : a = p
    · subst h
      simp
    · have h2 : ¬p = a := fun hh => h hh.symm
      simp [h, h2, ih]

theorem updatePlat_mapForm (L : List String) (g : String → PlatformStatus)
    (p : String) (f : PlatformStatus → PlatformStatus) :
    updatePlat (L.map (fun q => (q, g q))) p f =
      L.map (fun q => (q, if q = p then f (g q) else g q)) := by
  induction L with
  | nil => simp [updatePlat]
  | cons a t ih =>
    by_cases h : a = p <;> simp [updatePlat, h, ih]

theorem lookupPlat_updatePlat (m : PlatMap) (p x : String)
    (f : PlatformStatus → PlatformStatus) :
    lookupPlat (updatePlat m p f) x =
      if x = p then (lookupPlat m x).map f else lookupPlat m x := by
  induction m with
  | nil => simp [updatePlat, lookupPlat]
  | cons kv t ih =>
    obtain ⟨a, s⟩ := kv
    by_cases h : a = p
    · subst h
      by_cases hx : a = x
      · subst hx
        simp [updatePlat, lookupPlat]
      · simp [updatePlat, lookupPlat, hx, ih]
    · by_cases hx : a = x
      · subst hx
        have h2 : ¬a = p := h
        simp [updatePlat, lookupPlat, h2, if_neg (fun hh => h2 hh)]
      · simp [updatePlat, lookupPlat, h, hx, ih]

theorem updatePlat_updatePlat (m : PlatMap) (p : String)
    (f g : PlatformStatus → PlatformStatus) :
    updatePlat (updatePlat m p f) p g = updatePlat m p (fun s => g (f s)) := by
  induction m with
  | nil => simp [updatePlat]
  | cons kv t ih =>
    obtain ⟨a, s⟩ := kv
    by_cases h : a = p
    · subst h
      simp [updatePlat, ih]
    · simp [updatePlat, h, ih]

theorem lookupPlat_roundPlatforms (m : PlatMap) (p : String) :
    lookupPlat (roundPlatforms m) p =
      (lookupPlat m p).map (fun s => { s with progress := round2 s.progress }) := by
  induction m with
  | nil => simp [roundPlatforms, lookupPlat]
  | cons kv t ih =>
    obtain ⟨a, s⟩ := kv
    simp only [roundPlatforms, List.map_cons] at ih ⊢
    by_cases h : a = p
    · simp only [lookupPlat, if_pos h]
      simp
    · simp only [lookupPlat, if_neg h]
      exact ih

/-! ### Decomposition of a chunked-stage fold into per-platform folds -/

theorem stageApply_some (step : ReleaseEvent → PlatformStatus → PlatformStatus)
    (guard : ReleaseEvent → Bool) (L : List String) (g : String → PlatformStatus)
    (e : ReleaseEvent) (m1 : PlatMap)
    (h : stageApply step guard (L.map (fun q => (q, g q))) e = some m1) :
    ∃ p, e.platform = some p ∧ p ∈ L ∧ guard e = true ∧
      m1 = L.map (fun q => (q, if q = p then step e (g q) else g q)) := by
  unfold stageApply at h
  cases hp : e.platform with
  | none => rw [hp] at h; exact absurd h (by simp)
  | some p =>
    rw [hp] at h
    simp only [Option.some_bind] at h
    rw [lookupPlat_mapForm] at h
    by_cases hmem : p ∈ L
    · rw [if_pos hmem] at h
      simp only [Option.isSome_some, if_true] at h
      by_cases hg : guard e = true
      · rw [if_pos hg] at h
        refine ⟨p, rfl, hmem, hg, ?_⟩
        have h2 := (Option.some.injEq _ _).mp h
        rw [← h2, updatePlat_mapForm]
      · rw [if_neg hg] at h
        exact absurd h (by simp)
    · rw [if_neg hmem] at h
      simp at h

theorem foldlM_stageApply (step : ReleaseEvent → PlatformStatus → PlatformStatus)
    (guard : ReleaseEvent → Bool) :
    ∀ (es : List ReleaseEvent) (L : List String) (g : String → PlatformStatus)
      (m2 : PlatMap),
      List.foldlM (stageApply step guard) (L.map (fun q => (q, g q))) es = some m2 →
      m2 = L.map (fun q => (q,
        List.foldl (fun s e => step e s) (g q)
          (es.filter (fun e => decide (e.platform = some q))))) := by
  intro es
  induction es with
  | nil =>
    intro L g m2 h
    simp only [List.foldlM_nil, Option.pure_def, Option.some.injEq] at h
    simp [← h]
  | cons e tl ih =>
    intro L g m2 h
    rw [List.foldlM_cons] at h
    cases happ : stageApply step guard (L.map (fun q => (q, g q))) e with
    | none => rw [happ] at h; simp at h
    | some m1 =>
      rw [happ] at h
      simp only [Option.bind_eq_bind, Option.some_bind] at h
      obtain ⟨p, hp, hmem, hg, hm1⟩ := stageApply_some step guard L g e m1 happ
      subst hm1
      have h2 := ih L (fun q => if q = p then step e (g q) else g q) m2 h
      rw [h2]
      refine List.map_congr_left (fun q _ => ?_)
      simp only [List.filter_cons]
      by_cases hq : q = p
      · subst hq
        simp [hp]
      · have hne : ¬(e.platform = some q) := by
          rw [hp]
          intro hh
          exact hq ((Option.some.injEq _ _).mp hh).symm
        simp [hne, hq]

theorem foldlM_stageApply_declared (step : ReleaseEvent → PlatformStatus → PlatformStatus)
    (guard : ReleaseEvent → Bool) :
    ∀ (es : List ReleaseEvent) (L : List String) (g : String → PlatformStatus)
      (m2 : PlatMap),
      List.foldlM (stageApply step guard) (L.map (fun q => (q, g q))) es = some m2 →
      ∀ e ∈ es, guard e = true ∧ ∃ p, e.platform = some p ∧ p ∈ L := by
  intro es
  induction es with
  | nil => intro L g m2 _ e he; exact absurd he (List.not_mem_nil e)
  | cons e tl ih =>
    intro L g m2 h x hx
    rw [List.foldlM_cons] at h
    cases happ : stageApply step guard (L.map (fun q => (q, g q))) e with
    | none => rw [happ] at h; simp at h
    | some m1 =>
      rw [happ] at h
      simp only [Option.bind_eq_bind, Option.some_bind] at h
      obtain ⟨p, hp, hmem, hg, hm1⟩ := stageApply_some step guard L g e m1 happ
      subst hm1
      rcases List.mem_cons.mp hx with hx | hx
      · subst hx
        exact ⟨hg, p, hp, hmem⟩
      · exact ih L _ m2 h x hx

/-! ### Characterization of the single-platform folds -/

theorem repack_foldl_sameTotal (T : Int) :
    ∀ (es : List ReleaseEvent) (s : PlatformStatus),
      (∀ e ∈ es, hasCompleteName e = false → e.chunkTotal = T) →
      List.foldl (fun s e => repackStep e s) s es =
        { complete := s.complete || es.any (fun e => hasCompleteName e),
          num := s.num + ((es.filter (fun e => !hasCompleteName e)).length : Int),
          total :=
            if (es.filter (fun e => !hasCompleteName e)).length = 0 then s.total else T,
          progress :=
            s.progress + ((es.filter (fun e => !hasCompleteName e)).length : ℚ) / (T : ℚ) } := by
  intro es
  induction es with
  | nil => intro s _; simp
  | cons e tl ih =>
    intro s h
    have htl := fun x hx => h x (List.mem_cons_of_mem _ hx)
    rw [List.foldl_cons]
    by_cases hc : hasCompleteName e = true
    · have hstep : repackStep e s = { s with complete := true } := by
        simp [repackStep, hc]
      rw [hstep, ih _ htl]
      have hfil : (e :: tl).filter (fun e => !hasCompleteName e) =
          tl.filter (fun e => !hasCompleteName e) := by
        simp [List.filter_cons, hc]
      simp [hfil, hc]
    · have hcf : hasCompleteName e = false := by
        simpa using hc
      have hT := h e (List.mem_cons_self e tl) hcf
      have hstep : repackStep e s =
          { s with total := T, num := s.num + 1, progress := s.progress + 1 / (T : ℚ) } := by
        simp [repackStep, hcf, hT]
      rw [hstep, ih _ htl]
      have hfil : (e :: tl).filter (fun e => !hasCompleteName e) =
          e :: tl.filter (fun e => !hasCompleteName e) := by
        simp [List.filter_cons, hcf]
      refine PlatformStatus.mk.injEq .. ▸ ?_
      simp only [hfil, List.length_cons]
      refine ⟨?_, ?_, ?_, ?_⟩
      · simp [hcf]
      · push_cast
        ring
      · rw [ite_self, if_neg (Nat.succ_ne_zero _)]
      · push_cast
        ring

theorem release_foldl_chunks (T : Int) :
    ∀ (es : List ReleaseEvent) (s : PlatformStatus),
      (∀ e ∈ es, hasCompleteName e = false ∧ e.chunkTotal = T) →
      List.foldl (fun s e => releaseStep e s) s es =
        { complete :=
            s.complete || decide (s.num + 1 ≤ T ∧ T ≤ s.num + (es.length : Int)),
          num := s.num + (es.length : Int),
          total := if es.length = 0 then s.total else T,
          progress := s.progress + ((es.length : ℚ)) / (T : ℚ) } := by
  intro es
  induction es with
  | nil =>
    intro s _
    rw [List.foldl_nil]
    refine PlatformStatus.mk.injEq .. ▸ ?_
    refine ⟨?_, ?_, ?_, ?_⟩
    · have hdec : decide (s.num + 1 ≤ T ∧ T ≤ s.num + ((List.length ([] : List ReleaseEvent) : ℕ) : Int)) = false := by
        rw [decide_eq_false_iff_not]
        simp only [List.length_nil, Nat.cast_zero, add_zero]
        omega
      rw [hdec, Bool.or_false]
    · simp
    · simp
    · simp
  | cons e tl ih =>
    intro s h
    have htl := fun x hx => h x (List.mem_cons_of_mem _ hx)
    obtain ⟨hcf, hT⟩ := h e (List.mem_cons_self e tl)
    rw [List.foldl_cons]
    by_cases heq : T = s.num + 1
    · have hstep : releaseStep e s =
          { complete := true, num := s.num + 1, total := T,
            progress := s.progress + 1 / (T : ℚ) } := by
        simp only [releaseStep, hcf, Bool.false_eq_true, if_false, hT]
        rw [if_pos heq]
      rw [hstep, ih _ htl]
      refine PlatformStatus.mk.injEq .. ▸ ?_
      refine ⟨?_, ?_, ?_, ?_⟩
      · have hdec : decide (s.num + 1 ≤ T ∧ T ≤ s.num + ((List.length (e :: tl) : ℕ) : Int)) = true := by
          rw [decide_eq_true_eq]
          rw [List.length_cons]
          push_cast
          omega
        rw [hdec, Bool.true_or, Bool.or_true]
      · rw [List.length_cons]
        push_cast
        ring
      · rw [ite_self, List.length_cons, if_neg (Nat.succ_ne_zero _)]
      · rw [List.length_cons]
        push_cast
        ring
    · have hstep : releaseStep e s =
          { complete := s.complete, num := s.num + 1, total := T,
            progress := s.progress + 1 / (T : ℚ) } := by
        simp only [releaseStep, hcf, Bool.false_eq_true, if_false, hT]
        rw [if_neg heq]
      rw [hstep, ih _ htl]
      refine PlatformStatus.mk.injEq .. ▸ ?_
      refine ⟨?_, ?_, ?_, ?_⟩
      · have hdec : decide ((s.num + 1) + 1 ≤ T ∧ T ≤ (s.num + 1) + ((tl.length : ℕ) : Int)) =
            decide (s.num + 1 ≤ T ∧ T ≤ s.num + ((List.length (e :: tl) : ℕ) : Int)) := by
          rw [decide_eq_decide]
          rw [List.length_cons]
          push_cast
          omega
        rw [hdec]
      · rw [List.length_cons]
        push_cast
        ring
      · rw [ite_self, List.length_cons, if_neg (Nat.succ_ne_zero _)]
      · rw [List.length_cons]
        push_cast
        ring

theorem release_repack_foldl_core :
    ∀ (es : List ReleaseEvent) (s1 s2 : PlatformStatus),
      s1.num = s2.num → s1.total = s2.total → s1.progress = s2.progress →
      (List.foldl (fun s e => releaseStep e s) s1 es).num =
          (List.foldl (fun s e => repackStep e s) s2 es).num ∧
        (List.foldl (fun s e => releaseStep e s) s1 es).total =
          (List.foldl (fun s e => repackStep e s) s2 es).total ∧
        (List.foldl (fun s e => releaseStep e s) s1 es).progress =
          (List.foldl (fun s e => repackStep e s) s2 es).progress := by
  intro es
  induction es with
  | nil => intro s1 s2 h1 h2 h3; exact ⟨h1, h2, h3⟩
  | cons e tl ih =>
    intro s1 s2 h1 h2 h3
    rw [List.foldl_cons, List.foldl_cons]
    refine ih (releaseStep e s1) (repackStep e s2) ?_ ?_ ?_ <;>
      · simp only [releaseStep, repackStep]
        split <;> try split
        all_goals simp [h1, h2, h3]

theorem build_foldl :
    ∀ (es : List ReleaseEvent) (s : PlatformStatus),
      List.foldl (fun s e => buildStep e s) s es =
        if es = [] then s
        else { complete := true, num := 1, total := 1, progress := 1 } := by
  intro es
  induction es with
  | nil => intro s; simp
  | cons e tl ih =>
    intro s
    rw [List.foldl_cons, ih]
    simp [buildStep, ite_self]

/-! ### Sums over the per-platform dict -/

theorem sumNum_mapForm (L : List String) (g : String → PlatformStatus) :
    sumNum (L.map (fun q => (q, g q))) = (L.map (fun q => (g q).num)).sum := by
  simp only [sumNum, List.map_map]
  rfl

theorem sumTotal_mapForm (L : List String) (g : String → PlatformStatus) :
    sumTotal (L.map (fun q => (q, g q))) = (L.map (fun q => (g q).total)).sum := by
  simp only [sumTotal, List.map_map]
  rfl

theorem sumNum_roundPlatforms (m : PlatMap) :
    sumNum (roundPlatforms m) = sumNum m := by
  simp only [sumNum, roundPlatforms, List.map_map]
  rfl

theorem sumTotal_roundPlatforms (m : PlatMap) :
    sumTotal (roundPlatforms m) = sumTotal m := by
  simp only [sumTotal, roundPlatforms, List.map_map]
  rfl

theorem int_sum_eq_zero_iff (l : List Int) (h : ∀ x ∈ l, 0 ≤ x) :
    l.sum = 0 ↔ ∀ x ∈ l, x = 0 := by
  induction l with
  | nil => simp
  | cons a t ih =>
    have ha := h a (List.mem_cons_self a t)
    have hts : 0 ≤ t.sum := List.sum_nonneg (fun x hx => h x (List.mem_cons_of_mem _ hx))
    rw [List.sum_cons]
    constructor
    · intro hz
      have ha0 : a = 0 := by omega
      have ht0 : t.sum = 0 := by omega
      intro x hx
      rcases List.mem_cons.mp hx with hx | hx
      · rw [hx, ha0]
      · exact ((ih (fun x hx => h x (List.mem_cons_of_mem _ hx))).mp ht0) x hx
    · intro hz
      have ha0 : a = 0 := hz a (List.mem_cons_self a t)
      have ht0 : t.sum = 0 :=
        (ih (fun x hx => h x (List.mem_cons_of_mem _ hx))).mpr
          (fun x hx => hz x (List.mem_cons_of_mem _ hx))
      omega

/-! ### Arithmetic lemmas for progress fractions and rounding -/

theorem ratio_mem_unit (n t : Int) (h0 : 0 ≤ n) (h1 : n ≤ t) :
    0 ≤ (n : ℚ) / (t : ℚ) ∧ (n : ℚ) / (t : ℚ) ≤ 1 := by
  rcases eq_or_lt_of_le (h0.trans h1) with ht | ht
  · have hn : n = 0 := le_antisymm (ht ▸ h1) h0
    rw [hn, ← ht]
    norm_num
  · have htq : (0 : ℚ) < (t : ℚ) := by exact_mod_cast ht
    constructor
    · exact div_nonneg (by exact_mod_cast h0) (le_of_lt htq)
    · rw [div_le_one htq]
      exact_mod_cast h1

theorem round2_nonneg (q : ℚ) (h : 0 ≤ q) : 0 ≤ round2 q := by
  rw [round2, if_pos h]
  refine div_nonneg ?_ (by norm_num)
  have h2 : (0 : ℤ) ≤ ⌊q * 100 + 1 / 2⌋ := by
    apply Int.le_floor.mpr
    push_cast
    nlinarith
  exact_mod_cast h2

theorem round2_le_one (q : ℚ) (h0 : 0 ≤ q) (h1 : q ≤ 1) : round2 q ≤ 1 := by
  rw [round2, if_pos h0]
  rw [div_le_one (by norm_num)]
  have h2 : ⌊q * 100 + 1 / 2⌋ < 101 := by
    rw [Int.floor_lt]
    push_cast
    nlinarith
  have h3 : ⌊q * 100 + 1 / 2⌋ ≤ 100 := by omega
  exact_mod_cast h3

theorem round2_intCast (n : Int) (h : 0 ≤ n) : round2 (n : ℚ) = (n : ℚ) := by
  have hq : (0 : ℚ) ≤ (n : ℚ) := by exact_mod_cast h
  rw [round2, if_pos hq]
  have hfl : ⌊(n : ℚ) * 100 + 1 / 2⌋ = 100 * n := by
    rw [Int.floor_eq_iff]
    push_cast
    constructor <;> nlinarith
  rw [hfl]
  push_cast
  ring

theorem round2_one : round2 1 = 1 := by
  have h := round2_intCast 1 (by norm_num)
  simpa using h

theorem round2_zero : round2 0 = 0 := by
  have h := round2_intCast 0 (by norm_num)
  simpa using h

theorem round2_two : round2 2 = 2 := by
  have h := round2_intCast 2 (by norm_num)
  simpa using h

/-! ### Elimination lemmas: successful stage computations in closed form -/

theorem buildStatus_elim {events : List ReleaseEvent} {name : String}
    {P : List String} {b : ChunkedStatus} (h : buildStatus events name P = some b) :
    b = buildFinish (P.dedup.map (fun q => (q,
        List.foldl (fun s e => buildStep e s) PlatformStatus.init
          ((stageEvents events name buildGroup).filter
            (fun e => decide (e.platform = some q)))))) ∧
      ∀ e ∈ stageEvents events name buildGroup,
        ∃ p, e.platform = some p ∧ p ∈ P.dedup := by
  obtain ⟨m, hfold, hb⟩ := Option.map_eq_some'.mp h
  have hfold2 : List.foldlM (stageApply buildStep (fun _ => true))
      (P.dedup.map (fun q => (q, (fun _ : String => PlatformStatus.init) q)))
      (stageEvents events name buildGroup) = some m := hfold
  constructor
  · rw [← hb, foldlM_stageApply _ _ _ _ _ _ hfold2]
  · intro e he
    exact (foldlM_stageApply_declared _ _ _ _ _ _ hfold2 e he).2

theorem repackStatus_elim {events : List ReleaseEvent} {name : String}
    {P : List String} {r : ChunkedStatus} (h : repackStatus events name P = some r) :
    r = repackFinish (P.dedup.map (fun q => (q,
        List.foldl (fun s e => repackStep e s) PlatformStatus.init
          ((stageEvents events name repackGroup).filter
            (fun e => decide (e.platform = some q)))))) ∧
      ∀ e ∈ stageEvents events name repackGroup,
        chunkGuard e = true ∧ ∃ p, e.platform = some p ∧ p ∈ P.dedup := by
  obtain ⟨m, hfold, hb⟩ := Option.map_eq_some'.mp h
  have hfold2 : List.foldlM (stageApply repackStep chunkGuard)
      (P.dedup.map (fun q => (q, (fun _ : String => PlatformStatus.init) q)))
      (stageEvents events name repackGroup) = some m := hfold
  constructor
  · rw [← hb, foldlM_stageApply _ _ _ _ _ _ hfold2]
  · exact foldlM_stageApply_declared _ _ _ _ _ _ hfold2

theorem releaseStatus_elim {events : List ReleaseEvent} {name : String}
    {P : List String} {d : ChunkedStatus} (h : releaseStatus events name P = some d) :
    d = releaseFinish events name (P.dedup.map (fun q => (q,
        List.foldl (fun s e => releaseStep e s) PlatformStatus.init
          ((stageEvents events name updateVerifyGroup).filter
            (fun e => decide (e.platform = some q)))))) ∧
      ∀ e ∈ stageEvents events name updateVerifyGroup,
        chunkGuard e = true ∧ ∃ p, e.platform = some p ∧ p ∈ P.dedup := by
  obtain ⟨m, hfold, hb⟩ := Option.map_eq_some'.mp h
  have hfold2 : List.foldlM (stageApply releaseStep chunkGuard)
      (P.dedup.map (fun q => (q, (fun _ : String => PlatformStatus.init) q)))
      (stageEvents events name updateVerifyGroup) = some m := hfold
  constructor
  · rw [← hb, foldlM_stageApply _ _ _ _ _ _ hfold2]
  · exact foldlM_stageApply_declared _ _ _ _ _ _ hfold2

/-! ### Properties of the build-stage per-platform map -/

theorem build_platmap_sums (events : List ReleaseEvent) (name : String) (L : List String) :
    sumNum (L.map (fun q => (q,
        List.foldl (fun s e => buildStep e s) PlatformStatus.init
          ((stageEvents events name buildGroup).filter
            (fun e => decide (e.platform = some q)))))) =
      sumTotal (L.map (fun q => (q,
        List.foldl (fun s e => buildStep e s) PlatformStatus.init
          ((stageEvents events name buildGroup).filter
            (fun e => decide (e.platform = some q)))))) ∧
    (0 : Int) ≤ sumTotal (L.map (fun q => (q,
        List.foldl (fun s e => buildStep e s) PlatformStatus.init
          ((stageEvents events name buildGroup).filter
            (fun e => decide (e.platform = some q)))))) ∧
    (sumTotal (L.map (fun q => (q,
        List.foldl (fun s e => buildStep e s) PlatformStatus.init
          ((stageEvents events name buildGroup).filter
            (fun e => decide (e.platform = some q)))))) = 0 ↔
      ∀ q ∈ L, (stageEvents events name buildGroup).filter
          (fun e => decide (e.platform = some q)) = []) := by
  rw [sumNum_mapForm, sumTotal_mapForm]
  refine ⟨?_, ?_, ?_⟩
  · refine congrArg _ (List.map_congr_left (fun q _ => ?_))
    rw [build_foldl]
    split <;> rfl
  · refine List.sum_nonneg (fun x hx => ?_)
    obtain ⟨q, hq, rfl⟩ := List.mem_map.mp hx
    rw [build_foldl]
    split <;> norm_num [PlatformStatus.init]
  · have hnn : ∀ x ∈ L.map (fun q =>
        (List.foldl (fun s e => buildStep e s) PlatformStatus.init
          ((stageEvents events name buildGroup).filter
            (fun e => decide (e.platform = some q)))).total), (0 : Int) ≤ x := by
      intro x hx
      obtain ⟨q, hq, rfl⟩ := List.mem_map.mp hx
      rw [build_foldl]
      split <;> norm_num [PlatformStatus.init]
    rw [int_sum_eq_zero_iff _ hnn]
    constructor
    · intro h q hq
      have h2 := h _ (List.mem_map.mpr ⟨q, hq, rfl⟩)
      rw [build_foldl] at h2
      by_cases hfil : (stageEvents events name buildGroup).filter
          (fun e => decide (e.platform = some q)) = []
      · exact hfil
      · rw [if_neg hfil] at h2
        exact absurd h2 (by norm_num)
    · intro h x hx
      obtain ⟨q, hq, rfl⟩ := List.mem_map.mp hx
      rw [build_foldl, if_pos (h q hq)]
      rfl

theorem buildApply_pair (m : PlatMap) (e1 e2 : ReleaseEvent)
    (hpl : e1.platform = e2.platform) :
    (buildApply m e1).bind (fun m1 => buildApply m1 e2) = buildApply m e2 := by
  cases hp : e2.platform with
  | none =>
    have hp1 : e1.platform = none := by rw [hpl, hp]
    simp [buildApply, stageApply, hp1, hp]
  | some p =>
    have hp1 : e1.platform = some p := by rw [hpl, hp]
    by_cases hs : (lookupPlat m p).isSome = true
    · have h1 : buildApply m e1 = some (updatePlat m p (buildStep e1)) := by
        simp [buildApply, stageApply, hp1, hs]
      have hs2 : (lookupPlat (updatePlat m p (buildStep e1)) p).isSome = true := by
        rw [lookupPlat_updatePlat, if_pos rfl, Option.isSome_map']
        exact hs
      have h2 : buildApply (updatePlat m p (buildStep e1)) e2 =
          some (updatePlat (updatePlat m p (buildStep e1)) p (buildStep e2)) := by
        simp [buildApply, stageApply, hp, hs2]
      have h3 : buildApply m e2 = some (updatePlat m p (buildStep e2)) := by
        simp [buildApply, stageApply, hp, hs]
      rw [h1, Option.some_bind, h2, h3, updatePlat_updatePlat]
      exact congrArg some (congrArg (updatePlat m p) (funext (fun s => rfl)))
    · have h1 : buildApply m e1 = none := by simp [buildApply, stageApply, hp1, hs]
      have h3 : buildApply m e2 = none := by simp [buildApply, stageApply, hp, hs]
      rw [h1, h3]
      rfl

/-! ### Claim theorems -/

/-- C5: the release stage's `complete` flag is true exactly when at least one
event exists in the `release` group for the release, regardless of the
update-verify chunk progress: an explicit shipped signal overrides the chunk
math, and without it the stage is not complete even at aggregate progress
1.00 (model.py:395-396 guards `complete` only on `release_events.first()`). -/
theorem c5_release_complete_iff (events : List ReleaseEvent) (name : String)
    (P : List String) (d : ChunkedStatus) (h : releaseStatus events name P = some d) :
    d.complete = true ↔ stageEvents events name releaseGroup ≠ [] := by
  obtain ⟨hd, -⟩ := releaseStatus_elim h
  rw [hd]
  simp [releaseFinish]

/-- C5 witness: a concrete release with one update_verify chunk event giving
aggregate progress 1.00 but no release-group event: the stage is reported not
complete, instantiating `c5_release_complete_iff`. -/
theorem c5_release_complete_iff_witness :
    releaseStatus [evVerify1of1] relName [platLinux] = some c5Out ∧
    (c5Out.complete = true ↔ stageEvents [evVerify1of1] relName releaseGroup ≠ []) := by
  have heval : releaseStatus [evVerify1of1] relName [platLinux] = some c5Out := by
    simp +decide [releaseStatus, stageEvents, initPlatforms, releaseFinish, roundPlatforms,
      aggregateProgress, sumNum, sumTotal, evVerify1of1, releaseApply, stageApply, chunkGuard,
      lookupPlat, updatePlat, releaseStep, hasCompleteName, containsSub, subList,
      completeToken, updateVerifyGroup, releaseGroup, relName, platLinux, c5Out,
      PlatformStatus.init, List.foldlM_cons, List.foldlM_nil, List.filter_cons,
      Option.some_bind, Option.bind_eq_bind]
    norm_num [round2_one]
  exact ⟨heval, c5_release_complete_iff _ _ _ _ heval⟩

/-- C6: in every chunked stage the stage-level progress equals
`round(sum(num)/sum(total), 2)` over the reported platforms map, and it is
exactly `0.00` when the denominator is zero; for the build stage, Python 2
integer division `num / total` coincides with this because every build
platform entry has `num == total`. -/
theorem c6_stage_progress_formula :
    (∀ (events : List ReleaseEvent) (name : String) (P : List String) (b : ChunkedStatus),
        buildStatus events name P = some b →
        b.progress = if sumTotal b.platforms = 0 then 0
          else round2 ((sumNum b.platforms : ℚ) / (sumTotal b.platforms : ℚ))) ∧
    (∀ (events : List ReleaseEvent) (name : String) (P : List String) (r : ChunkedStatus),
        repackStatus events name P = some r →
        r.progress = if sumTotal r.platforms = 0 then 0
          else round2 ((sumNum r.platforms : ℚ) / (sumTotal r.platforms : ℚ))) ∧
    (∀ (events : List ReleaseEvent) (name : String) (P : List String) (d : ChunkedStatus),
        releaseStatus events name P = some d →
        d.progress = if sumTotal d.platforms = 0 then 0
          else round2 ((sumNum d.platforms : ℚ) / (sumTotal d.platforms : ℚ))) := by
  refine ⟨?_, ?_, ?_⟩
  · intro events name P b h
    obtain ⟨hb, -⟩ := buildStatus_elim h
    rw [hb]
    obtain ⟨hsum, hnn, -⟩ := build_platmap_sums events name P.dedup
    simp only [buildFinish, buildAggregate]
    by_cases h0 : sumTotal (P.dedup.map (fun q => (q,
        List.foldl (fun s e => buildStep e s) PlatformStatus.init
          ((stageEvents events name buildGroup).filter
            (fun e => decide (e.platform = some q)))))) = 0
    · rw [if_pos h0, if_pos h0]
    · rw [if_neg h0, if_neg h0, hsum, Int.fdiv_self h0]
      have hq : ((sumTotal (P.dedup.map (fun q => (q,
          List.foldl (fun s e => buildStep e s) PlatformStatus.init
            ((stageEvents events name buildGroup).filter
              (fun e => decide (e.platform = some q)))))) : ℚ)) ≠ 0 :=
        Int.cast_ne_zero.mpr h0
      rw [div_self hq, round2_one]
      norm_num
  · intro events name P r h
    obtain ⟨hr, -⟩ := repackStatus_elim h
    rw [hr]
    simp only [repackFinish, aggregateProgress, sumNum_roundPlatforms, sumTotal_roundPlatforms]
  · intro events name P d h
    obtain ⟨hd, -⟩ := releaseStatus_elim h
    rw [hd]
    simp only [releaseFinish, aggregateProgress, sumNum_roundPlatforms, sumTotal_roundPlatforms]

/-- C6 witness: instantiates `c6_stage_progress_formula` on a release with a
single build event for its single declared platform. -/
theorem c6_stage_progress_formula_witness :
    buildStatus [evBuildLinux] relName [platLinux] = some c6Out ∧
    c6Out.progress = if sumTotal c6Out.platforms = 0 then 0
      else round2 ((sumNum c6Out.platforms : ℚ) / (sumTotal c6Out.platforms : ℚ)) := by
  have hfd : Int.fdiv 1 1 = 1 := by decide
  have heval : buildStatus [evBuildLinux] relName [platLinux] = some c6Out := by
    simp +decide [buildStatus, stageEvents, initPlatforms, buildFinish, buildAggregate,
      sumNum, sumTotal, evBuildLinux, buildApply, stageApply, lookupPlat, updatePlat,
      buildStep, buildGroup, relName, platLinux, PlatformStatus.init, c6Out,
      List.foldlM_cons, List.foldlM_nil, List.filter_cons,
      Option.some_bind, Option.bind_eq_bind, hfd]
  exact ⟨heval, c6_stage_progress_formula.1 _ _ _ _ heval⟩

/-- C7: every platform of the declared platform set appears in the platforms
map of each chunked stage, and a declared platform with zero matching events
keeps the initial entry `complete = false, num = 0, total = 0, progress =
0.00` (model.py:284-285, 314-315, 369-370). -/
theorem c7_declared_platforms_reported (events : List ReleaseEvent) (name p : String)
    (P : List String) (hp : p ∈ P) :
    (∀ b, buildStatus events name P = some b →
      (lookupPlat b.platforms p).isSome = true ∧
      ((∀ e ∈ stageEvents events name buildGroup, e.platform ≠ some p) →
        lookupPlat b.platforms p = some PlatformStatus.init)) ∧
    (∀ r, repackStatus events name P = some r →
      (lookupPlat r.platforms p).isSome = true ∧
      ((∀ e ∈ stageEvents events name repackGroup, e.platform ≠ some p) →
        lookupPlat r.platforms p = some PlatformStatus.init)) ∧
    (∀ d, releaseStatus events name P = some d →
      (lookupPlat d.platforms p).isSome = true ∧
      ((∀ e ∈ stageEvents events name updateVerifyGroup, e.platform ≠ some p) →
        lookupPlat d.platforms p = some PlatformStatus.init)) := by
  have hpd : p ∈ P.dedup := List.mem_dedup.mpr hp
  refine ⟨?_, ?_, ?_⟩
  · intro b h
    obtain ⟨hb, -⟩ := buildStatus_elim h
    rw [hb]
    simp only [buildFinish, lookupPlat_mapForm, if_pos hpd]
    refine ⟨rfl, fun hno => ?_⟩
    have hfil : (stageEvents events name buildGroup).filter
        (fun e => decide (e.platform = some p)) = [] := by
      rw [List.filter_eq_nil_iff]
      intro a ha
      simp [hno a ha]
    rw [hfil]
    rfl
  · intro r h
    obtain ⟨hr, -⟩ := repackStatus_elim h
    rw [hr]
    simp only [repackFinish, lookupPlat_roundPlatforms, lookupPlat_mapForm, if_pos hpd,
      Option.map_some']
    refine ⟨rfl, fun hno => ?_⟩
    have hfil : (stageEvents events name repackGroup).filter
        (fun e => decide (e.platform = some p)) = [] := by
      rw [List.filter_eq_nil_iff]
      intro a ha
      simp [hno a ha]
    rw [hfil]
    simp [PlatformStatus.init, round2_zero]
  · intro d h
    obtain ⟨hd, -⟩ := releaseStatus_elim h
    rw [hd]
    simp only [releaseFinish, lookupPlat_roundPlatforms, lookupPlat_mapForm, if_pos hpd,
      Option.map_some']
    refine ⟨rfl, fun hno => ?_⟩
    have hfil : (stageEvents events name updateVerifyGroup).filter
        (fun e => decide (e.platform = some p)) = [] := by
      rw [List.filter_eq_nil_iff]
      intro a ha
      simp [hno a ha]
    rw [hfil]
    simp [PlatformStatus.init, round2_zero]

/-- C7 witness: a release declaring platforms linux and mac with zero events
for mac still reports a mac entry initialized to zero progress in the build
stage, instantiating `c7_declared_platforms_reported`. -/
theorem c7_declared_platforms_reported_witness :
    (platMac ∈ ([platLinux, platMac] : List String)) ∧
    buildStatus [evBuildLinux] relName [platLinux, platMac] = some c7Out ∧
    (lookupPlat c7Out.platforms platMac).isSome = true ∧
    lookupPlat c7Out.platforms platMac = some PlatformStatus.init := by
  have hfd : Int.fdiv 1 1 = 1 := by decide
  have heval : buildStatus [evBuildLinux] relName [platLinux, platMac] = some c7Out := by
    simp +decide [buildStatus, stageEvents, initPlatforms, buildFinish, buildAggregate,
      sumNum, sumTotal, evBuildLinux, buildApply, stageApply, lookupPlat, updatePlat,
      buildStep, buildGroup, relName, platLinux, platMac, PlatformStatus.init, c7Out,
      List.foldlM_cons, List.foldlM_nil, List.filter_cons, List.dedup_cons_of_not_mem,
      Option.some_bind, Option.bind_eq_bind, hfd]
  have hmem : platMac ∈ ([platLinux, platMac] : List String) := by decide
  have hmain := (c7_declared_platforms_reported [evBuildLinux] relName platMac
    [platLinux, platMac] hmem).1 _ heval
  exact ⟨hmem, heval, hmain.1, hmain.2 (by decide)⟩

/-- C8: the status computation is a deterministic pure function of the event
set and the declared platform set; two computations over equal inputs return
identical status documents, and the embedding of `getStatus` (model.py:257-266)
is a pure function, so no invocation mutates any state. -/
theorem c8_status_deterministic (events1 events2 : List ReleaseEvent) (name : String)
    (P1 P2 : List String) (he : events1 = events2) (hP : P1 = P2) :
    getStatus events1 name P1 = getStatus events2 name P2 := by
  subst he
  subst hP
  rfl

/-- C8 witness: instantiates `c8_status_deterministic` on a concrete event
set. -/
theorem c8_status_deterministic_witness :
    ([evTag] = [evTag]) ∧ (([platLinux] : List String) = [platLinux]) ∧
    getStatus [evTag] relName [platLinux] = getStatus [evTag] relName [platLinux] :=
  ⟨rfl, rfl, c8_status_deterministic [evTag] [evTag] relName [platLinux] [platLinux] rfl rfl⟩

/-- C1 (amended): for a declared platform receiving chunk events `1..N` of
`N` (each with `chunkTotal = N`, none with a name containing `"complete"`),
after all `N` events are folded in the platform reports `chunks.num ==
chunks.total == N` and progress rounding to `1.00` in both chunked stages;
the platform `complete` flag is set by accumulation only in the
update_verify/release stage (model.py:377-379), while in the repack stage it
remains `false` because `repackStatus` never compares `num` with `total`
(model.py:316-322): accumulation is not equivalent to an explicit
`"complete"` event there. -/
theorem c1_chunk_accumulation (events : List ReleaseEvent) (name p : String)
    (P : List String) (N : ℕ) (hp : p ∈ P) (hN : 0 < N) :
    (∀ r, repackStatus events name P = some r →
      ((stageEvents events name repackGroup).filter
        (fun e => decide (e.platform = some p))).length = N →
      (∀ e ∈ (stageEvents events name repackGroup).filter
          (fun e => decide (e.platform = some p)),
        hasCompleteName e = false ∧ e.chunkTotal = (N : Int)) →
      lookupPlat r.platforms p =
        some { complete := false, num := (N : Int), total := (N : Int), progress := 1 }) ∧
    (∀ d, releaseStatus events name P = some d →
      ((stageEvents events name updateVerifyGroup).filter
        (fun e => decide (e.platform = some p))).length = N →
      (∀ e ∈ (stageEvents events name updateVerifyGroup).filter
          (fun e => decide (e.platform = some p)),
        hasCompleteName e = false ∧ e.chunkTotal = (N : Int)) →
      lookupPlat d.platforms p =
        some { complete := true, num := (N : Int), total := (N : Int), progress := 1 }) := by
  have hpd : p ∈ P.dedup := List.mem_dedup.mpr hp
  have hNz : N ≠ 0 := by omega
  have hNq : ((N : ℕ) : ℚ) ≠ 0 := Nat.cast_ne_zero.mpr hNz
  constructor
  · intro r hr hlen hall
    obtain ⟨hrEq, -⟩ := repackStatus_elim hr
    rw [hrEq]
    simp only [repackFinish, lookupPlat_roundPlatforms, lookupPlat_mapForm, if_pos hpd,
      Option.map_some']
    rw [repack_foldl_sameTotal ((N : ℕ) : Int) _ PlatformStatus.init
      (fun e he _ => (hall e he).2)]
    have hfee : ((stageEvents events name repackGroup).filter
        (fun e => decide (e.platform = some p))).filter (fun e => !hasCompleteName e) =
        (stageEvents events name repackGroup).filter (fun e => decide (e.platform = some p)) := by
      rw [List.filter_eq_self]
      intro a ha
      rw [(hall a ha).1]
      rfl
    have hany : ((stageEvents events name repackGroup).filter
        (fun e => decide (e.platform = some p))).any (fun e => hasCompleteName e) = false := by
      rw [List.any_eq_false]
      intro x hx
      rw [(hall x hx).1]
      exact Bool.false_ne_true
    rw [hfee, hlen, hany]
    have hdiv : ((N : ℕ) : ℚ) / ((N : ℕ) : ℚ) = 1 := div_self hNq
    simp [PlatformStatus.init, if_neg hNz, hdiv, round2_one]
  · intro d hd hlen hall
    obtain ⟨hdEq, -⟩ := releaseStatus_elim hd
    rw [hdEq]
    simp only [releaseFinish, lookupPlat_roundPlatforms, lookupPlat_mapForm, if_pos hpd,
      Option.map_some']
    rw [release_foldl_chunks ((N : ℕ) : Int) _ PlatformStatus.init (fun e he => hall e he)]
    rw [hlen]
    have hdec : decide (PlatformStatus.init.num + 1 ≤ ((N : ℕ) : Int) ∧
        ((N : ℕ) : Int) ≤ PlatformStatus.init.num + ((N : ℕ) : Int)) = true := by
      rw [decide_eq_true_eq]
      simp only [PlatformStatus.init]
      constructor <;> omega
    rw [hdec]
    have hdiv : ((N : ℕ) : ℚ) / ((N : ℕ) : ℚ) = 1 := div_self hNq
    simp [PlatformStatus.init, if_neg hNz, hdiv, round2_one]

/-- C1 counterexample: a repack chunk event 1 of 1 (no `"complete"` event)
reaches `chunks.num == chunks.total == 1` with progress `1.00`, yet the
reported platform `complete` flag is `false`, refuting the claim that
accumulation marks the platform complete in every chunked stage. -/
theorem c1_chunk_accumulation_cex :
    repackStatus [evRepack1of1] relName [platLinux] =
      some { complete := true,
             platforms := [(platLinux, { complete := false, num := 1, total := 1, progress := 1 })],
             progress := 1 } := by
  simp +decide [repackStatus, stageEvents, initPlatforms, repackFinish, roundPlatforms,
    aggregateProgress, sumNum, sumTotal, evRepack1of1, repackApply, stageApply, chunkGuard,
    lookupPlat, updatePlat, repackStep, hasCompleteName, containsSub, subList,
    completeToken, repackGroup, relName, platLinux, PlatformStatus.init,
    List.foldlM_cons, List.foldlM_nil, List.filter_cons, Option.some_bind,
    Option.bind_eq_bind]
  norm_num [round2_one]

/-- C1 witness: chunk events 1..2 of 2 for linux in both chunked stages,
instantiating `c1_chunk_accumulation` with `N = 2`. -/
theorem c1_chunk_accumulation_witness :
    (platLinux ∈ ([platLinux] : List String)) ∧ 0 < 2 ∧
    repackStatus [evRepack1of2, evRepack2of2, evVerify1of2, evVerify2of2] relName [platLinux] =
      some c1RepOut ∧
    releaseStatus [evRepack1of2, evRepack2of2, evVerify1of2, evVerify2of2] relName [platLinux] =
      some c1RelOut ∧
    lookupPlat c1RepOut.platforms platLinux =
      some { complete := false, num := ((2 : ℕ) : Int), total := ((2 : ℕ) : Int), progress := 1 } ∧
    lookupPlat c1RelOut.platforms platLinux =
      some { complete := true, num := ((2 : ℕ) : Int), total := ((2 : ℕ) : Int), progress := 1 } := by
  have hrep : repackStatus [evRepack1of2, evRepack2of2, evVerify1of2, evVerify2of2]
      relName [platLinux] = some c1RepOut := by
    simp +decide [repackStatus, stageEvents, initPlatforms, repackFinish, roundPlatforms,
      aggregateProgress, sumNum, sumTotal, evRepack1of2, evRepack2of2, evVerify1of2,
      evVerify2of2, repackApply, stageApply, chunkGuard, lookupPlat, updatePlat, repackStep,
      hasCompleteName, containsSub, subList, completeToken, repackGroup, updateVerifyGroup,
      relName, platLinux, PlatformStatus.init, c1RepOut, List.foldlM_cons, List.foldlM_nil,
      List.filter_cons, Option.some_bind, Option.bind_eq_bind]
    norm_num [round2_one]
  have hrel : releaseStatus [evRepack1of2, evRepack2of2, evVerify1of2, evVerify2of2]
      relName [platLinux] = some c1RelOut := by
    simp +decide [releaseStatus, stageEvents, initPlatforms, releaseFinish, roundPlatforms,
      aggregateProgress, sumNum, sumTotal, evRepack1of2, evRepack2of2, evVerify1of2,
      evVerify2of2, releaseApply, stageApply, chunkGuard, lookupPlat, updatePlat, releaseStep,
      hasCompleteName, containsSub, subList, completeToken, repackGroup, updateVerifyGroup,
      releaseGroup, relName, platLinux, PlatformStatus.init, c1RelOut, List.foldlM_cons,
      List.foldlM_nil, List.filter_cons, Option.some_bind, Option.bind_eq_bind]
    norm_num [round2_one]
  have hmain := c1_chunk_accumulation
    [evRepack1of2, evRepack2of2, evVerify1of2, evVerify2of2] relName platLinux [platLinux] 2
    (by decide) (by decide)
  exact ⟨by decide, by decide, hrep, hrel,
    hmain.1 _ hrep (by decide) (by decide), hmain.2 _ hrel (by decide) (by decide)⟩

/-- C2: the claim says a non-`"complete"` chunk event with `chunkTotal = 0`
contributes no progress and never raises; the code instead raises
`ZeroDivisionError` evaluating `1.00/chunkTotal` (model.py:320, 376), so the
whole status computation fails: the embedding returns `none` on such an
event. The stage-level division guard (model.py:330-333) shows the intended
no-raise behavior stated by the spec. -/
theorem c2_zero_chunk_total_raises :
    repackStatus [evRepackZeroTotal] relName [platLinux] = none ∧
    releaseStatus [evVerifyZeroTotal] relName [platLinux] = none ∧
    getStatus [evRepackZeroTotal] relName [platLinux] = none := by
  decide

/-- C3 (amended): an event of a chunked-stage group whose platform is null or
absent from the declared platform set makes that stage's reducer raise
`KeyError` (the embedding returns `none`) rather than being ignored. -/
theorem c3_undeclared_platform_raises (events : List ReleaseEvent) (name : String)
    (P : List String) :
    ((∃ e ∈ stageEvents events name buildGroup, eventPlatformDeclared e P = false) →
      buildStatus events name P = none) ∧
    ((∃ e ∈ stageEvents events name repackGroup, eventPlatformDeclared e P = false) →
      repackStatus events name P = none) ∧
    ((∃ e ∈ stageEvents events name updateVerifyGroup, eventPlatformDeclared e P = false) →
      releaseStatus events name P = none) := by
  refine ⟨?_, ?_, ?_⟩
  · rintro ⟨e, he, hbad⟩
    cases h : buildStatus events name P with
    | none => rfl
    | some b =>
      exfalso
      obtain ⟨-, hdecl⟩ := buildStatus_elim h
      obtain ⟨q, hq, hmem⟩ := hdecl e he
      rw [eventPlatformDeclared, hq] at hbad
      simp only [Option.elim_some, decide_eq_false_iff_not] at hbad
      exact hbad (List.mem_dedup.mp hmem)
  · rintro ⟨e, he, hbad⟩
    cases h : repackStatus events name P with
    | none => rfl
    | some r =>
      exfalso
      obtain ⟨-, hdecl⟩ := repackStatus_elim h
      obtain ⟨q, hq, hmem⟩ := (hdecl e he).2
      rw [eventPlatformDeclared, hq] at hbad
      simp only [Option.elim_some, decide_eq_false_iff_not] at hbad
      exact hbad (List.mem_dedup.mp hmem)
  · rintro ⟨e, he, hbad⟩
    cases h : releaseStatus events name P with
    | none => rfl
    | some d =>
      exfalso
      obtain ⟨-, hdecl⟩ := releaseStatus_elim h
      obtain ⟨q, hq, hmem⟩ := (hdecl e he).2
      rw [eventPlatformDeclared, hq] at hbad
      simp only [Option.elim_some, decide_eq_false_iff_not] at hbad
      exact hbad (List.mem_dedup.mp hmem)

/-- C3 counterexample: a repack event for undeclared platform bsd makes
`repackStatus` fail (`KeyError`, embedded as `none`), while without that
event the same computation succeeds: the event is neither ignored nor
harmless, refuting the claim that its presence does not change the status
report. -/
theorem c3_undeclared_platform_cex :
    repackStatus [evRepackBsd] relName [platLinux] = none ∧
    repackStatus ([] : List ReleaseEvent) relName [platLinux] =
      some { complete := false, platforms := [(platLinux, PlatformStatus.init)],
             progress := 0 } := by
  constructor
  · decide
  · simp +decide [repackStatus, stageEvents, initPlatforms, repackFinish, roundPlatforms,
      aggregateProgress, sumNum, sumTotal, repackApply, stageApply, chunkGuard,
      lookupPlat, updatePlat, repackStep, repackGroup, relName, platLinux,
      PlatformStatus.init, List.foldlM_nil]
    norm_num [round2_zero]

/-- C3 witness: instantiates `c3_undeclared_platform_raises` with the bsd
repack event of the counterexample. -/
theorem c3_undeclared_platform_raises_witness :
    (∃ e ∈ stageEvents [evRepackBsd] relName repackGroup,
      eventPlatformDeclared e [platLinux] = false) ∧
    repackStatus [evRepackBsd] relName [platLinux] = none := by
  have hex : ∃ e ∈ stageEvents [evRepackBsd] relName repackGroup,
      eventPlatformDeclared e [platLinux] = false := by decide
  exact ⟨hex, (c3_undeclared_platform_raises [evRepackBsd] relName [platLinux]).2.1 hex⟩

/-- C9: the build stage is boolean-per-platform: its aggregate progress is
always exactly 0 or 1 (never a strict fraction), the stage is complete
exactly when at least one build-group event for a declared platform exists
(declared platforms without events do not prevent completion, since
`num == total` holds per platform), and repeated build events for one
platform have the same effect as one because `chunks.num` and `chunks.total`
are assigned `1`, not incremented (model.py:287-307). -/
theorem c9_build_boolean_semantics :
    (∀ (events : List ReleaseEvent) (name : String) (P : List String) (b : ChunkedStatus),
        buildStatus events name P = some b →
        (b.progress = 0 ∨ b.progress = 1) ∧
        (b.complete = true ↔ ∃ e ∈ stageEvents events name buildGroup,
          ∃ p, e.platform = some p ∧ p ∈ P)) ∧
    (∀ (events : List ReleaseEvent) (name : String) (P : List String) (e1 e2 : ReleaseEvent),
        e1.name = name → e1.group = some buildGroup → e2.name = name →
        e2.group = some buildGroup → e1.platform = e2.platform →
        buildStatus (events ++ [e1, e2]) name P = buildStatus (events ++ [e2]) name P) := by
  constructor
  · intro events name P b h
    obtain ⟨hb, hdecl⟩ := buildStatus_elim h
    obtain ⟨hsum, hnn, hzero⟩ := build_platmap_sums events name P.dedup
    subst hb
    constructor
    · by_cases h0 : sumTotal (P.dedup.map (fun q => (q,
          List.foldl (fun s e => buildStep e s) PlatformStatus.init
            ((stageEvents events name buildGroup).filter
              (fun e => decide (e.platform = some q)))))) = 0
      · left
        simp [buildFinish, buildAggregate, h0]
      · right
        simp only [buildFinish, buildAggregate, if_neg h0]
        rw [hsum, Int.fdiv_self h0]
        norm_num
    · simp only [buildFinish, decide_eq_true_eq]
      constructor
      · intro hcm
        by_cases h0 : sumTotal (P.dedup.map (fun q => (q,
            List.foldl (fun s e => buildStep e s) PlatformStatus.init
              ((stageEvents events name buildGroup).filter
                (fun e => decide (e.platform = some q)))))) = 0
        · rw [buildAggregate, if_pos h0] at hcm
          exact absurd hcm (by norm_num)
        · have hq : ¬∀ q ∈ P.dedup, (stageEvents events name buildGroup).filter
              (fun e => decide (e.platform = some q)) = [] := fun hall => h0 (hzero.mpr hall)
          push_neg at hq
          obtain ⟨q, hqL, hqne⟩ := hq
          obtain ⟨e, he⟩ := List.exists_mem_of_ne_nil _ hqne
          obtain ⟨heS, hep⟩ := List.mem_filter.mp he
          refine ⟨e, heS, q, ?_, List.mem_dedup.mp hqL⟩
          exact of_decide_eq_true hep
      · rintro ⟨e, he, p, hplat, hpP⟩
        have hpd : p ∈ P.dedup := List.mem_dedup.mpr hpP
        have hne : (stageEvents events name buildGroup).filter
            (fun e => decide (e.platform = some p)) ≠ [] := by
          refine List.ne_nil_of_mem (a := e) (List.mem_filter.mpr ⟨he, ?_⟩)
          simp [hplat]
        have h0 : sumTotal (P.dedup.map (fun q => (q,
            List.foldl (fun s e => buildStep e s) PlatformStatus.init
              ((stageEvents events name buildGroup).filter
                (fun e => decide (e.platform = some q)))))) ≠ 0 :=
          fun hz => hne ((hzero.mp hz) p hpd)
        rw [buildAggregate, if_neg h0, hsum, Int.fdiv_self h0]
        norm_num
  · intro events name P e1 e2 h1n h1g h2n h2g hpl
    unfold buildStatus
    have hse : stageEvents (events ++ [e1, e2]) name buildGroup =
        stageEvents events name buildGroup ++ [e1, e2] := by
      simp [stageEvents, List.filter_append, List.filter_cons, h1n, h1g, h2n, h2g]
    have hse2 : stageEvents (events ++ [e2]) name buildGroup =
        stageEvents events name buildGroup ++ [e2] := by
      simp [stageEvents, List.filter_append, List.filter_cons, h2n, h2g]
    rw [hse, hse2, List.foldlM_append, List.foldlM_append]
    cases hfold : List.foldlM buildApply (initPlatforms P)
        (stageEvents events name buildGroup) with
    | none => rfl
    | some m =>
      simp only [List.foldlM_cons, List.foldlM_nil, Option.bind_eq_bind, Option.some_bind,
        Option.pure_def]
      have key := buildApply_pair m e1 e2 hpl
      cases ha : buildApply m e1 with
      | none =>
        rw [ha, Option.none_bind] at key
        rw [← key]
        simp
      | some m1 =>
        rw [ha, Option.some_bind] at key
        rw [← key]
        simp

/-- C9 witness: two build events for linux behave as one, and the stage with
one build event is complete with progress 1, instantiating
`c9_build_boolean_semantics`. -/
theorem c9_build_boolean_semantics_witness :
    buildStatus [evBuildLinux] relName [platLinux] = some c6Out ∧
    (c6Out.progress = 0 ∨ c6Out.progress = 1) ∧
    (c6Out.complete = true ↔ ∃ e ∈ stageEvents [evBuildLinux] relName buildGroup,
      ∃ p, e.platform = some p ∧ p ∈ [platLinux]) ∧
    (evBuildLinux.name = relName) ∧
    buildStatus ([] ++ [evBuildLinux, evBuildLinux2]) relName [platLinux] =
      buildStatus ([] ++ [evBuildLinux2]) relName [platLinux] := by
  have hfd : Int.fdiv 1 1 = 1 := by decide
  have heval : buildStatus [evBuildLinux] relName [platLinux] = some c6Out := by
    simp +decide [buildStatus, stageEvents, initPlatforms, buildFinish, buildAggregate,
      sumNum, sumTotal, evBuildLinux, buildApply, stageApply, lookupPlat, updatePlat,
      buildStep, buildGroup, relName, platLinux, PlatformStatus.init, c6Out,
      List.foldlM_cons, List.foldlM_nil, List.filter_cons,
      Option.some_bind, Option.bind_eq_bind, hfd]
  have hmain := (c9_build_boolean_semantics.1 [evBuildLinux] relName [platLinux] c6Out heval)
  refine ⟨heval, hmain.1, hmain.2, by decide, ?_⟩
  exact c9_build_boolean_semantics.2 [] relName [platLinux] evBuildLinux evBuildLinux2
    (by decide) (by decide) (by decide) (by decide) (by decide)

/-! ### Congruence machinery: the reducers never read chunkNum -/

theorem forall2_filter_congr {α : Type} {R : α → α → Prop} (p : α → Bool)
    (hp : ∀ a b, R a b → p a = p b) :
    ∀ {l1 l2 : List α}, List.Forall₂ R l1 l2 →
      List.Forall₂ R (l1.filter p) (l2.filter p) := by
  intro l1 l2 h
  induction h with
  | nil => exact List.Forall₂.nil
  | @cons a b t1 t2 h1 h2 ih =>
    simp only [List.filter_cons]
    by_cases hpa : p a = true
    · have hpb : p b = true := by rw [← hp _ _ h1]; exact hpa
      rw [if_pos hpa, if_pos hpb]
      exact List.Forall₂.cons h1 ih
    · have hpb : ¬p b = true := by rw [← hp _ _ h1]; exact hpa
      rw [if_neg hpa, if_neg hpb]
      exact ih

theorem forall2_foldlM_congr {α β : Type} {R : α → α → Prop} (f : β → α → Option β)
    (hf : ∀ (m : β) (a b : α), R a b → f m a = f m b) :
    ∀ {l1 l2 : List α}, List.Forall₂ R l1 l2 → ∀ (init : β),
      List.foldlM f init l1 = List.foldlM f init l2 := by
  intro l1 l2 h
  induction h with
  | nil => intro init; rfl
  | @cons a b t1 t2 h1 h2 ih =>
    intro init
    rw [List.foldlM_cons, List.foldlM_cons, hf init _ _ h1]
    cases hfb : f init b with
    | none => rfl
    | some m => simp only [Option.bind_eq_bind, Option.some_bind, ih m]

theorem forall2_any_congr {α : Type} {R : α → α → Prop} (p : α → Bool)
    (hp : ∀ a b, R a b → p a = p b) :
    ∀ {l1 l2 : List α}, List.Forall₂ R l1 l2 → l1.any p = l2.any p := by
  intro l1 l2 h
  induction h with
  | nil => rfl
  | @cons a b t1 t2 h1 h2 ih => simp only [List.any_cons, hp _ _ h1, ih]

theorem forall2_isEmpty_congr {α : Type} {R : α → α → Prop} :
    ∀ {l1 l2 : List α}, List.Forall₂ R l1 l2 → l1.isEmpty = l2.isEmpty := by
  intro l1 l2 h
  cases h with
  | nil => rfl
  | cons h1 h2 => rfl

theorem forall2_eq_nil_congr {α : Type} {R : α → α → Prop} :
    ∀ {l1 l2 : List α}, List.Forall₂ R l1 l2 → ((l1 = []) ↔ (l2 = [])) := by
  intro l1 l2 h
  cases h with
  | nil => simp
  | cons h1 h2 => simp

theorem stageEvents_congr {events1 events2 : List ReleaseEvent} (name g : String)
    (h : List.Forall₂ eqExceptChunkNum events1 events2) :
    List.Forall₂ eqExceptChunkNum (stageEvents events1 name g)
      (stageEvents events2 name g) := by
  refine forall2_filter_congr _ (fun a b hab => ?_) h
  obtain ⟨h1, -, -, -, -, h6⟩ := hab
  rw [h1, h6]

theorem buildApply_congr (m : PlatMap) (a b : ReleaseEvent) (h : eqExceptChunkNum a b) :
    buildApply m a = buildApply m b := by
  obtain ⟨-, -, h3, -, -, -⟩ := h
  unfold buildApply stageApply
  rw [h3]
  rfl

theorem repackApply_congr (m : PlatMap) (a b : ReleaseEvent) (h : eqExceptChunkNum a b) :
    repackApply m a = repackApply m b := by
  obtain ⟨-, h2, h3, -, h5, -⟩ := h
  unfold repackApply stageApply
  rw [h3]
  have hg : chunkGuard a = chunkGuard b := by
    simp [chunkGuard, hasCompleteName, h2, h5]
  have hstep : repackStep a = repackStep b := by
    funext s
    simp [repackStep, hasCompleteName, h2, h5]
  rw [hg, hstep]

theorem releaseApply_congr (m : PlatMap) (a b : ReleaseEvent) (h : eqExceptChunkNum a b) :
    releaseApply m a = releaseApply m b := by
  obtain ⟨-, h2, h3, -, h5, -⟩ := h
  unfold releaseApply stageApply
  rw [h3]
  have hg : chunkGuard a = chunkGuard b := by
    simp [chunkGuard, hasCompleteName, h2, h5]
  have hstep : releaseStep a = releaseStep b := by
    funext s
    simp [releaseStep, hasCompleteName, h2, h5]
  rw [hg, hstep]

theorem buildStatus_congr {events1 events2 : List ReleaseEvent} (name : String)
    (P : List String) (h : List.Forall₂ eqExceptChunkNum events1 events2) :
    buildStatus events1 name P = buildStatus events2 name P := by
  unfold buildStatus
  rw [forall2_foldlM_congr buildApply buildApply_congr
    (stageEvents_congr name buildGroup h) (initPlatforms P)]

theorem repackStatus_congr {events1 events2 : List ReleaseEvent} (name : String)
    (P : List String) (h : List.Forall₂ eqExceptChunkNum events1 events2) :
    repackStatus events1 name P = repackStatus events2 name P := by
  unfold repackStatus
  rw [forall2_foldlM_congr repackApply repackApply_congr
    (stageEvents_congr name repackGroup h) (initPlatforms P)]

theorem releaseStatus_congr {events1 events2 : List ReleaseEvent} (name : String)
    (P : List String) (h : List.Forall₂ eqExceptChunkNum events1 events2) :
    releaseStatus events1 name P = releaseStatus events2 name P := by
  unfold releaseStatus
  rw [forall2_foldlM_congr releaseApply releaseApply_congr
    (stageEvents_congr name updateVerifyGroup h) (initPlatforms P)]
  have hfin : releaseFinish events1 name = releaseFinish events2 name := by
    funext m
    unfold releaseFinish
    have hne : (stageEvents events1 name releaseGroup = []) ↔
        (stageEvents events2 name releaseGroup = []) :=
      forall2_eq_nil_congr (stageEvents_congr name releaseGroup h)
    rw [decide_eq_decide.mpr (not_congr hne)]
  rw [hfin]

theorem boolStatus_congr {events1 events2 : List ReleaseEvent} (name g : String)
    (h : List.Forall₂ eqExceptChunkNum events1 events2) :
    boolStatus events1 name g = boolStatus events2 name g := by
  unfold boolStatus
  rw [forall2_any_congr _ (fun a b hab => by rw [hab.1]) (stageEvents_congr name g h)]

theorem postreleaseStatus_congr {events1 events2 : List ReleaseEvent} (name : String)
    (h : List.Forall₂ eqExceptChunkNum events1 events2) :
    postreleaseStatus events1 name = postreleaseStatus events2 name := by
  unfold postreleaseStatus
  have hfil := forall2_filter_congr (fun e => decide (e.name = name))
    (fun a b hab => by simp [hab.1]) h
  rw [forall2_any_congr _ (fun a b hab => by simp [hab.2.1]) hfil]

theorem repackApply_chunk (m : PlatMap) (e : ReleaseEvent) (p : String)
    (hp : e.platform = some p) (hl : (lookupPlat m p).isSome = true)
    (hc : hasCompleteName e = false) (hN : e.chunkTotal ≠ 0) :
    repackApply m e = some (updatePlat m p (repackStep e)) := by
  have hg : chunkGuard e = true := by
    simp [chunkGuard, hc, bne_iff_ne, hN]
  unfold repackApply stageApply
  rw [hp, Option.some_bind, if_pos hl, if_pos hg]

/-- C10: the status report never reads any event's `chunkNum`: two event sets
equal except for their `chunkNum` values yield identical status documents;
in particular two chunk events for the same platform with the same
`chunkNum` both increment that platform's `chunks.num` (model.py:319, 375
increment by 1 unconditionally). -/
theorem c10_chunkNum_irrelevant :
    (∀ (events1 events2 : List ReleaseEvent) (name : String) (P : List String),
        List.Forall₂ eqExceptChunkNum events1 events2 →
        getStatus events1 name P = getStatus events2 name P) ∧
    (∀ (name p : String) (P : List String) (k N : Int) (en1 en2 : String),
        p ∈ P → N ≠ 0 →
        containsSub en1 completeToken = false → containsSub en2 completeToken = false →
        ∃ r, repackStatus [⟨name, en1, some p, 0, k, N, some repackGroup⟩,
            ⟨name, en2, some p, 0, k, N, some repackGroup⟩] name P = some r ∧
          ∃ s, lookupPlat r.platforms p = some s ∧ s.num = 2 ∧ s.total = N) := by
  constructor
  · intro events1 events2 name P h
    unfold getStatus
    rw [forall2_isEmpty_congr (forall2_filter_congr _ (fun a b hab => by simp [hab.1]) h)]
    rw [buildStatus_congr name P h, repackStatus_congr name P h, releaseStatus_congr name P h]
    have ht : tagStatus events1 name = tagStatus events2 name := by
      unfold tagStatus
      exact boolStatus_congr _ _ h
    have hu : updateStatus events1 name = updateStatus events2 name := by
      unfold updateStatus
      exact boolStatus_congr _ _ h
    have hrt : releasetestStatus events1 name = releasetestStatus events2 name := by
      unfold releasetestStatus
      exact boolStatus_congr _ _ h
    have hpost := postreleaseStatus_congr name h
    rw [ht, hu, hrt, hpost]
  · intro name p P k N en1 en2 hp hN h1 h2
    have hpd : p ∈ P.dedup := List.mem_dedup.mpr hp
    have hinit : lookupPlat (initPlatforms P) p = some PlatformStatus.init := by
      unfold initPlatforms
      rw [lookupPlat_mapForm, if_pos hpd]
    have hl0 : (lookupPlat (initPlatforms P) p).isSome = true := by
      rw [hinit]
      rfl
    have hm1 := repackApply_chunk (initPlatforms P)
      ⟨name, en1, some p, 0, k, N, some repackGroup⟩ p rfl hl0 h1 hN
    have hl1 : (lookupPlat (updatePlat (initPlatforms P) p
        (repackStep ⟨name, en1, some p, 0, k, N, some repackGroup⟩)) p).isSome = true := by
      rw [lookupPlat_updatePlat, if_pos rfl, Option.isSome_map']
      exact hl0
    have hm2 := repackApply_chunk
      (updatePlat (initPlatforms P) p (repackStep ⟨name, en1, some p, 0, k, N, some repackGroup⟩))
      ⟨name, en2, some p, 0, k, N, some repackGroup⟩ p rfl hl1 h2 hN
    have hse : stageEvents [⟨name, en1, some p, 0, k, N, some repackGroup⟩,
        ⟨name, en2, some p, 0, k, N, some repackGroup⟩] name repackGroup =
        [⟨name, en1, some p, 0, k, N, some repackGroup⟩,
          ⟨name, en2, some p, 0, k, N, some repackGroup⟩] := by
      simp [stageEvents]
    have hfold : List.foldlM repackApply (initPlatforms P)
        [⟨name, en1, some p, 0, k, N, some repackGroup⟩,
          ⟨name, en2, some p, 0, k, N, some repackGroup⟩] =
        some (updatePlat (updatePlat (initPlatforms P) p
          (repackStep ⟨name, en1, some p, 0, k, N, some repackGroup⟩)) p
          (repackStep ⟨name, en2, some p, 0, k, N, some repackGroup⟩)) := by
      simp only [List.foldlM_cons, List.foldlM_nil, Option.bind_eq_bind, hm1,
        Option.some_bind, hm2, Option.pure_def]
    refine ⟨repackFinish (updatePlat (updatePlat (initPlatforms P) p
      (repackStep ⟨name, en1, some p, 0, k, N, some repackGroup⟩)) p
      (repackStep ⟨name, en2, some p, 0, k, N, some repackGroup⟩)), ?_, ?_⟩
    · unfold repackStatus
      rw [hse, hfold]
      rfl
    · simp only [repackFinish, lookupPlat_roundPlatforms, lookupPlat_updatePlat, if_pos rfl,
        hinit, Option.map_some']
      refine ⟨_, rfl, ?_, ?_⟩
      · simp [repackStep, hasCompleteName, h1, h2, PlatformStatus.init]
      · simp [repackStep, hasCompleteName, h1, h2, PlatformStatus.init]

/-- C10 witness: instantiates `c10_chunkNum_irrelevant` on two event lists
differing only in the `chunkNum` of the second repack event, and on two
chunk events for the same platform sharing `chunkNum`. -/
theorem c10_chunkNum_irrelevant_witness :
    List.Forall₂ eqExceptChunkNum [evRepack1of2, evRepack2of2]
      [evRepack1of2, evRepack2of2dupNum] ∧
    getStatus [evRepack1of2, evRepack2of2] relName [platLinux] =
      getStatus [evRepack1of2, evRepack2of2dupNum] relName [platLinux] ∧
    (platLinux ∈ ([platLinux] : List String)) ∧ ((5 : Int) ≠ 0) ∧
    containsSub enRepack1 completeToken = false ∧
    containsSub enRepack2 completeToken = false ∧
    (∃ r, repackStatus [⟨relName, enRepack1, some platLinux, 0, 7, 5, some repackGroup⟩,
        ⟨relName, enRepack2, some platLinux, 0, 7, 5, some repackGroup⟩] relName [platLinux] =
          some r ∧
      ∃ s, lookupPlat r.platforms platLinux = some s ∧ s.num = 2 ∧ s.total = 5) := by
  have hrel : List.Forall₂ eqExceptChunkNum [evRepack1of2, evRepack2of2]
      [evRepack1of2, evRepack2of2dupNum] :=
    List.Forall₂.cons ⟨rfl, rfl, rfl, rfl, rfl, rfl⟩
      (List.Forall₂.cons ⟨rfl, rfl, rfl, rfl, rfl, rfl⟩ List.Forall₂.nil)
  refine ⟨hrel, c10_chunkNum_irrelevant.1 _ _ relName [platLinux] hrel,
    by decide, by decide, by decide, by decide, ?_⟩
  exact c10_chunkNum_irrelevant.2 relName platLinux [platLinux] 7 5 enRepack1 enRepack2
    (by decide) (by decide) (by decide) (by decide)

/-! ### Per-platform entry bounds under consistent chunk reporting -/

theorem repack_platform_entry (esp : List ReleaseEvent)
    (heq : ∀ e1 ∈ esp.filter (fun e => !hasCompleteName e),
      ∀ e2 ∈ esp.filter (fun e => !hasCompleteName e), e1.chunkTotal = e2.chunkTotal)
    (hle : ∀ e ∈ esp.filter (fun e => !hasCompleteName e),
      ((esp.filter (fun e => !hasCompleteName e)).length : Int) ≤ e.chunkTotal) :
    0 ≤ (List.foldl (fun s e => repackStep e s) PlatformStatus.init esp).num ∧
    (List.foldl (fun s e => repackStep e s) PlatformStatus.init esp).num ≤
      (List.foldl (fun s e => repackStep e s) PlatformStatus.init esp).total ∧
    (List.foldl (fun s e => repackStep e s) PlatformStatus.init esp).progress =
      ((List.foldl (fun s e => repackStep e s) PlatformStatus.init esp).num : ℚ) /
        ((List.foldl (fun s e => repackStep e s) PlatformStatus.init esp).total : ℚ) := by
  cases hnc : esp.filter (fun e => !hasCompleteName e) with
  | nil =>
    have hall : ∀ e ∈ esp, hasCompleteName e = false → e.chunkTotal = 0 := by
      intro e he hc
      exfalso
      have hmem : e ∈ esp.filter (fun e => !hasCompleteName e) :=
        List.mem_filter.mpr ⟨he, by simp [hc]⟩
      rw [hnc] at hmem
      exact List.not_mem_nil e hmem
    rw [repack_foldl_sameTotal 0 esp PlatformStatus.init hall, hnc]
    simp [PlatformStatus.init]
  | cons e0 rest =>
    have he0 : e0 ∈ esp.filter (fun e => !hasCompleteName e) := by
      rw [hnc]
      exact List.mem_cons_self _ _
    have hall : ∀ e ∈ esp, hasCompleteName e = false → e.chunkTotal = e0.chunkTotal := by
      intro e he hc
      exact heq e (List.mem_filter.mpr ⟨he, by simp [hc]⟩) e0 he0
    rw [repack_foldl_sameTotal e0.chunkTotal esp PlatformStatus.init hall]
    have hklen : ((esp.filter (fun e => !hasCompleteName e)).length : Int) ≤ e0.chunkTotal :=
      hle e0 he0
    have hkpos : (esp.filter (fun e => !hasCompleteName e)).length ≠ 0 := by
      rw [hnc]
      simp
    rw [if_neg hkpos]
    simp only [PlatformStatus.init]
    refine ⟨by omega, by omega, ?_⟩
    push_cast
    ring

theorem release_platform_entry (esp : List ReleaseEvent)
    (heq : ∀ e1 ∈ esp.filter (fun e => !hasCompleteName e),
      ∀ e2 ∈ esp.filter (fun e => !hasCompleteName e), e1.chunkTotal = e2.chunkTotal)
    (hle : ∀ e ∈ esp.filter (fun e => !hasCompleteName e),
      ((esp.filter (fun e => !hasCompleteName e)).length : Int) ≤ e.chunkTotal) :
    0 ≤ (List.foldl (fun s e => releaseStep e s) PlatformStatus.init esp).num ∧
    (List.foldl (fun s e => releaseStep e s) PlatformStatus.init esp).num ≤
      (List.foldl (fun s e => releaseStep e s) PlatformStatus.init esp).total ∧
    (List.foldl (fun s e => releaseStep e s) PlatformStatus.init esp).progress =
      ((List.foldl (fun s e => releaseStep e s) PlatformStatus.init esp).num : ℚ) /
        ((List.foldl (fun s e => releaseStep e s) PlatformStatus.init esp).total : ℚ) := by
  obtain ⟨hn, ht, hpr⟩ := release_repack_foldl_core esp PlatformStatus.init
    PlatformStatus.init rfl rfl rfl
  obtain ⟨a, b, c⟩ := repack_platform_entry esp heq hle
  rw [hn, ht, hpr]
  exact ⟨a, b, c⟩

/-- Bounds of the rounded aggregate over a per-platform map in which every
entry satisfies `0 ≤ num ≤ total`. -/
theorem aggregateProgress_bounds (L : List String) (S : String → PlatformStatus)
    (h : ∀ q ∈ L, 0 ≤ (S q).num ∧ (S q).num ≤ (S q).total) :
    0 ≤ aggregateProgress (L.map (fun q => (q, S q))) ∧
      aggregateProgress (L.map (fun q => (q, S q))) ≤ 1 := by
  rw [aggregateProgress, sumNum_mapForm, sumTotal_mapForm]
  by_cases h0 : (L.map (fun q => (S q).total)).sum = 0
  · rw [if_pos h0]
    norm_num
  · rw [if_neg h0]
    have hsle : (L.map (fun q => (S q).num)).sum ≤ (L.map (fun q => (S q).total)).sum :=
      List.sum_le_sum (fun q hq => (h q hq).2)
    have hsnn : (0 : Int) ≤ (L.map (fun q => (S q).num)).sum := by
      refine List.sum_nonneg ?_
      intro x hx
      obtain ⟨q, hq, rfl⟩ := List.mem_map.mp hx
      exact (h q hq).1
    obtain ⟨hr0, hr1⟩ := ratio_mem_unit _ _ hsnn hsle
    exact ⟨round2_nonneg _ hr0, round2_le_one _ hr0 hr1⟩

/-- C4 (amended): progress values are not clamped by the code and can leave
`[0,1]` when a platform reports more chunk events than its declared
`chunkTotal` (see the counterexample); under consistent chunk reporting —
for each declared platform all non-`"complete"` chunk events carry one
common `chunkTotal` and number at most that total — every stage-level and
per-platform progress value of the three chunked stages lies in `[0,1]`
(build-stage values do so unconditionally). -/
theorem c4_progress_bounds :
    (∀ (events : List ReleaseEvent) (name : String) (P : List String) (b : ChunkedStatus),
        buildStatus events name P = some b →
        (0 ≤ b.progress ∧ b.progress ≤ 1) ∧
        (∀ p s, lookupPlat b.platforms p = some s → 0 ≤ s.progress ∧ s.progress ≤ 1)) ∧
    (∀ (events : List ReleaseEvent) (name : String) (P : List String) (r : ChunkedStatus),
        repackStatus events name P = some r →
        consistentChunks events name repackGroup P →
        (0 ≤ r.progress ∧ r.progress ≤ 1) ∧
        (∀ p s, lookupPlat r.platforms p = some s → 0 ≤ s.progress ∧ s.progress ≤ 1)) ∧
    (∀ (events : List ReleaseEvent) (name : String) (P : List String) (d : ChunkedStatus),
        releaseStatus events name P = some d →
        consistentChunks events name updateVerifyGroup P →
        (0 ≤ d.progress ∧ d.progress ≤ 1) ∧
        (∀ p s, lookupPlat d.platforms p = some s → 0 ≤ s.progress ∧ s.progress ≤ 1)) := by
  refine ⟨?_, ?_, ?_⟩
  · intro events name P b h
    obtain ⟨hb, -⟩ := buildStatus_elim h
    obtain ⟨hsum, hnn, -⟩ := build_platmap_sums events name P.dedup
    subst hb
    constructor
    · by_cases h0 : sumTotal (P.dedup.map (fun q => (q,
          List.foldl (fun s e => buildStep e s) PlatformStatus.init
            ((stageEvents events name buildGroup).filter
              (fun e => decide (e.platform = some q)))))) = 0
      · simp [buildFinish, buildAggregate, h0]
      · simp only [buildFinish, buildAggregate, if_neg h0]
        rw [hsum, Int.fdiv_self h0]
        norm_num
    · intro p s hs
      simp only [buildFinish, lookupPlat_mapForm] at hs
      by_cases hpd : p ∈ P.dedup
      · rw [if_pos hpd, Option.some.injEq] at hs
        rw [← hs, build_foldl]
        split
        · simp [PlatformStatus.init]
        · norm_num
      · rw [if_neg hpd] at hs
        exact absurd hs (by simp)
  · intro events name P r h hcons
    obtain ⟨hr, -⟩ := repackStatus_elim h
    subst hr
    have hent : ∀ q ∈ P.dedup,
        0 ≤ (List.foldl (fun s e => repackStep e s) PlatformStatus.init
            ((stageEvents events name repackGroup).filter
              (fun e => decide (e.platform = some q)))).num ∧
          (List.foldl (fun s e => repackStep e s) PlatformStatus.init
            ((stageEvents events name repackGroup).filter
              (fun e => decide (e.platform = some q)))).num ≤
          (List.foldl (fun s e => repackStep e s) PlatformStatus.init
            ((stageEvents events name repackGroup).filter
              (fun e => decide (e.platform = some q)))).total ∧
          (List.foldl (fun s e => repackStep e s) PlatformStatus.init
            ((stageEvents events name repackGroup).filter
              (fun e => decide (e.platform = some q)))).progress =
          ((List.foldl (fun s e => repackStep e s) PlatformStatus.init
            ((stageEvents events name repackGroup).filter
              (fun e => decide (e.platform = some q)))).num : ℚ) /
          ((List.foldl (fun s e => repackStep e s) PlatformStatus.init
            ((stageEvents events name repackGroup).filter
              (fun e => decide (e.platform = some q)))).total : ℚ) := by
      intro q hq
      obtain ⟨heq, hle⟩ := hcons q (List.mem_dedup.mp hq)
      unfold platformChunkEvents at heq hle
      exact repack_platform_entry _ heq hle
    constructor
    · simp only [repackFinish]
      exact aggregateProgress_bounds P.dedup _ (fun q hq => ⟨(hent q hq).1, (hent q hq).2.1⟩)
    · intro p s hs
      simp only [repackFinish, lookupPlat_roundPlatforms, lookupPlat_mapForm] at hs
      by_cases hpd : p ∈ P.dedup
      · rw [if_pos hpd, Option.map_some', Option.some.injEq] at hs
        obtain ⟨h0, h1, hpr⟩ := hent p hpd
        obtain ⟨hq0, hq1⟩ := ratio_mem_unit _ _ h0 h1
        rw [← hpr] at hq0 hq1
        rw [← hs]
        exact ⟨round2_nonneg _ hq0, round2_le_one _ hq0 hq1⟩
      · rw [if_neg hpd] at hs
        exact absurd hs (by simp)
  · intro events name P d h hcons
    obtain ⟨hd, -⟩ := releaseStatus_elim h
    subst hd
    have hent : ∀ q ∈ P.dedup,
        0 ≤ (List.foldl (fun s e => releaseStep e s) PlatformStatus.init
            ((stageEvents events name updateVerifyGroup).filter
              (fun e => decide (e.platform = some q)))).num ∧
          (List.foldl (fun s e => releaseStep e s) PlatformStatus.init
            ((stageEvents events name updateVerifyGroup).filter
              (fun e => decide (e.platform = some q)))).num ≤
          (List.foldl (fun s e => releaseStep e s) PlatformStatus.init
            ((stageEvents events name updateVerifyGroup).filter
              (fun e => decide (e.platform = some q)))).total ∧
          (List.foldl (fun s e => releaseStep e s) PlatformStatus.init
            ((stageEvents events name updateVerifyGroup).filter
              (fun e => decide (e.platform = some q)))).progress =
          ((List.foldl (fun s e => releaseStep e s) PlatformStatus.init
            ((stageEvents events name updateVerifyGroup).filter
              (fun e => decide (e.platform = some q)))).num : ℚ) /
          ((List.foldl (fun s e => releaseStep e s) PlatformStatus.init
            ((stageEvents events name updateVerifyGroup).filter
              (fun e => decide (e.platform = some q)))).total : ℚ) := by
      intro q hq
      obtain ⟨heq, hle⟩ := hcons q (List.mem_dedup.mp hq)
      unfold platformChunkEvents at heq hle
      exact release_platform_entry _ heq hle
    constructor
    · simp only [releaseFinish]
      exact aggregateProgress_bounds P.dedup _ (fun q hq => ⟨(hent q hq).1, (hent q hq).2.1⟩)
    · intro p s hs
      simp only [releaseFinish, lookupPlat_roundPlatforms, lookupPlat_mapForm] at hs
      by_cases hpd : p ∈ P.dedup
      · rw [if_pos hpd, Option.map_some', Option.some.injEq] at hs
        obtain ⟨h0, h1, hpr⟩ := hent p hpd
        obtain ⟨hq0, hq1⟩ := ratio_mem_unit _ _ h0 h1
        rw [← hpr] at hq0 hq1
        rw [← hs]
        exact ⟨round2_nonneg _ hq0, round2_le_one _ hq0 hq1⟩
      · rw [if_neg hpd] at hs
        exact absurd hs (by simp)

/-- C4 counterexample: two repack chunk events both declaring `chunkTotal =
1` drive the linux platform progress and the stage progress to `2`, outside
`[0,1]`, refuting the claim that progress always lies in the unit interval. -/
theorem c4_progress_bounds_cex :
    repackStatus [evRepack1of1, evRepack2of1] relName [platLinux] =
      some { complete := false,
             platforms := [(platLinux, { complete := false, num := 2, total := 1, progress := 2 })],
             progress := 2 } ∧
    (1 : ℚ) < 2 := by
  refine ⟨?_, by norm_num⟩
  simp +decide [repackStatus, stageEvents, initPlatforms, repackFinish, roundPlatforms,
    aggregateProgress, sumNum, sumTotal, evRepack1of1, evRepack2of1, repackApply, stageApply,
    chunkGuard, lookupPlat, updatePlat, repackStep, hasCompleteName, containsSub, subList,
    completeToken, repackGroup, relName, platLinux, PlatformStatus.init,
    List.foldlM_cons, List.foldlM_nil, List.filter_cons, Option.some_bind,
    Option.bind_eq_bind]
  norm_num [round2_two]

/-- C4 witness: consistent 2-of-2 repack reporting for linux instantiates
`c4_progress_bounds`, all progress values landing in `[0,1]`. -/
theorem c4_progress_bounds_witness :
    repackStatus [evRepack1of2, evRepack2of2] relName [platLinux] = some c1RepOut ∧
    consistentChunks [evRepack1of2, evRepack2of2] relName repackGroup [platLinux] ∧
    (0 ≤ c1RepOut.progress ∧ c1RepOut.progress ≤ 1) ∧
    (∀ p s, lookupPlat c1RepOut.platforms p = some s → 0 ≤ s.progress ∧ s.progress ≤ 1) := by
  have heval : repackStatus [evRepack1of2, evRepack2of2] relName [platLinux] =
      some c1RepOut := by
    simp +decide [repackStatus, stageEvents, initPlatforms, repackFinish, roundPlatforms,
      aggregateProgress, sumNum, sumTotal, evRepack1of2, evRepack2of2, repackApply,
      stageApply, chunkGuard, lookupPlat, updatePlat, repackStep, hasCompleteName,
      containsSub, subList, completeToken, repackGroup, relName, platLinux,
      PlatformStatus.init, c1RepOut, List.foldlM_cons, List.foldlM_nil, List.filter_cons,
      Option.some_bind, Option.bind_eq_bind]
    norm_num [round2_one]
  have hcons : consistentChunks [evRepack1of2, evRepack2of2] relName repackGroup
      [platLinux] := by
    unfold consistentChunks platformChunkEvents
    decide
  have hmain := c4_progress_bounds.2.1 [evRepack1of2, evRepack2of2] relName [platLinux]
    c1RepOut heval hcons
  exact ⟨heval, hcons, hmain.1, hmain.2⟩

end Kickoff
